import Mathlib

/-
  Verification development for the flexitime expected-hours / running-balance
  computation core.

  Shallow embedding conventions:
  * Hours and balances are rationals (Python floats carry exact decimal values
    in all the computations modelled here).
  * Dates are integers counting days; by convention date 0 is a Monday, so the
    weekday of a date d is d mod 7 (0 = Monday .. 6 = Sunday), matching
    Python's date.weekday().
  * Record identifiers (employee, company, holiday list, presence type, leave
    type, leave application) are natural numbers.
  * The frappe database is modelled by an explicit environment of record lists;
    frappe.db.get_value / find-one queries become List.find? (first match),
    and SQL existence checks become List.any.
  * Python falsy-or defaults (x or d) on numeric fields become pyOr.
-/

namespace Flexitime

/-- Python `x or d` on a numeric field: both None (modelled as 0) and 0 are
falsy and fall back to the default. -/
def pyOr (x d : ℚ) : ℚ := if x = 0 then d else x

/-- Weekday of a date, with date 0 a Monday: 0 = Monday .. 6 = Sunday.
Mirrors Python's date.weekday(). -/
def weekday (d : ℤ) : ℕ := (d % 7).toNat

/-- Employee Work Pattern document (employee_work_pattern.py).
docstatus: 0 = draft, 1 = submitted (committed), 2 = cancelled. -/
structure EmployeeWorkPattern where
  name : ℕ
  employee : ℕ
  docstatus : ℕ
  valid_from : ℤ
  valid_to : Option ℤ
  fte_percentage : ℚ
  monday_hours : ℚ
  tuesday_hours : ℚ
  wednesday_hours : ℚ
  thursday_hours : ℚ
  friday_hours : ℚ
  saturday_hours : ℚ
  sunday_hours : ℚ
  initial_balance : ℚ
deriving Repr, DecidableEq

/-- The 7 per-weekday hour fields in Monday..Sunday order, as iterated by
calculate_weekly_expected_hours_with_holidays (utils.py days_of_week). -/
def EmployeeWorkPattern.days_of_week (p : EmployeeWorkPattern) : List ℚ :=
  [p.monday_hours, p.tuesday_hours, p.wednesday_hours, p.thursday_hours,
   p.friday_hours, p.saturday_hours, p.sunday_hours]

/-- EmployeeWorkPattern.get_hours_for_weekday: hours for the date's weekday
(hours_map.get(weekday, 0) or 0; the or-0 is the identity on rationals). -/
def EmployeeWorkPattern.get_hours_for_weekday (p : EmployeeWorkPattern) (date : ℤ) : ℚ :=
  match weekday date with
  | 0 => p.monday_hours
  | 1 => p.tuesday_hours
  | 2 => p.wednesday_hours
  | 3 => p.thursday_hours
  | 4 => p.friday_hours
  | 5 => p.saturday_hours
  | 6 => p.sunday_hours
  | _ => 0

/-- Employee record (the fields read by the core: holiday_list, company). -/
structure Employee where
  name : ℕ
  holiday_list : Option ℕ
  company : Option ℕ
deriving Repr, DecidableEq

/-- Company record (the fields read by the core). -/
structure Company where
  name : ℕ
  default_holiday_list : Option ℕ
  base_weekly_hours : Option ℚ
deriving Repr, DecidableEq

/-- One Holiday row: child of a Holiday List (parent) with a date. -/
structure Holiday where
  parent : ℕ
  holiday_date : ℤ
deriving Repr, DecidableEq

/-- Leave Application document (the fields read by get_leave_days_in_week). -/
structure LeaveApplication where
  name : ℕ
  employee : ℕ
  status : String
  docstatus : ℕ
  from_date : ℤ
  to_date : ℤ
  half_day : Bool
  half_day_date : Option ℤ
  leave_type : ℕ
deriving Repr, DecidableEq

/-- Presence Type document (the fields read by the core). expect_work_hours is
a check field (0/1); Python tests its truthiness. -/
structure PresenceType where
  name : ℕ
  leave_type : Option ℕ
  requires_leave_application : Bool
  expect_work_hours : ℕ
deriving Repr, DecidableEq

/-- The database environment read by the calculators: frappe tables plus the
session default company. -/
structure Env where
  patterns : List EmployeeWorkPattern
  employees : List Employee
  companies : List Company
  default_company : Option ℕ
  holidays : List Holiday
  leave_applications : List LeaveApplication
  presence_types : List PresenceType
deriving Repr, DecidableEq

/-- get_work_pattern (employee_work_pattern.py line 265): among submitted
patterns of the employee with valid_from ≤ date ≤ valid_to (valid_to null =
open ended), the one with greatest valid_from (ORDER BY valid_from DESC
LIMIT 1; on a tie the earlier row of the table is kept). -/
def get_work_pattern (patterns : List EmployeeWorkPattern) (employee : ℕ) (date : ℤ) :
    Option EmployeeWorkPattern :=
  let candidates := patterns.filter (fun p =>
    p.employee == employee && p.docstatus == 1 && decide (p.valid_from ≤ date) &&
      (match p.valid_to with
       | some vt => decide (date ≤ vt)
       | none => true))
  candidates.foldl (fun acc p =>
    match acc with
    | none => some p
    | some q => if q.valid_from < p.valid_from then some p else some q) none

/-- Employee's company field (frappe.db.get_value("Employee", e, "company")). -/
def employee_company (env : Env) (employee : ℕ) : Option ℕ :=
  (env.employees.find? (fun r => r.name == employee)).bind (fun r => r.company)

/-- is_holiday (utils.py line 58): resolve the holiday list (employee's, else
the default company's default list); a date is a holiday when a Holiday row of
that list carries it; with no list resolvable the answer is false. -/
def is_holiday (env : Env) (date : ℤ) (employee : Option ℕ) : Bool :=
  let holiday_list : Option ℕ :=
    match employee with
    | some e => (env.employees.find? (fun r => r.name == e)).bind (fun r => r.holiday_list)
    | none => none
  let holiday_list : Option ℕ :=
    match holiday_list with
    | some l => some l
    | none =>
      match env.default_company with
      | some c =>
        (env.companies.find? (fun r => r.name == c)).bind (fun r => r.default_holiday_list)
      | none => none
  match holiday_list with
  | none => false
  | some l => env.holidays.any (fun h => h.parent == l && h.holiday_date == date)

/-- get_base_weekly_hours (utils.py line 233): company falls back to the
default company; the stored base_weekly_hours is used when truthy, else 40. -/
def get_base_weekly_hours (env : Env) (company : Option ℕ) : ℚ :=
  let company : Option ℕ :=
    match company with
    | some c => some c
    | none => env.default_company
  match company with
  | none => 40
  | some c =>
    match (env.companies.find? (fun r => r.name == c)).bind (fun r => r.base_weekly_hours) with
    | some b => if b = 0 then 40 else b
    | none => 40

/-- The dates from from_date to to_date inclusive (the while-loop of
get_leave_days_in_week); empty when to_date < from_date. -/
def datesFromTo (from_date to_date : ℤ) : List ℤ :=
  (List.range (to_date + 1 - from_date).toNat).map (fun (i : ℕ) => from_date + (i : ℤ))

/-- One element of the list returned by get_leave_days_in_week. -/
structure LeaveDayInfo where
  date : ℤ
  presence_type : ℕ
  is_half_day : Bool
  expect_work_hours : ℕ
  leave_application : ℕ
deriving Repr, DecidableEq

/-- get_leave_days_in_week (utils.py line 252): approved submitted leave
applications of the employee overlapping the week, each mapped through the
Presence Type with its leave_type and requires_leave_application set (skipped
when none exists), expanded into one record per day of the leave that lies in
[week_start, week_start+6], with the half-day flag set exactly on the
half_day_date. -/
def get_leave_days_in_week (env : Env) (employee : ℕ) (week_start : ℤ) :
    List LeaveDayInfo :=
  let week_end := week_start + 6
  let leave_apps := env.leave_applications.filter (fun la =>
    la.employee == employee && la.status == "Approved" && la.docstatus == 1 &&
      decide (la.from_date ≤ week_end) && decide (week_start ≤ la.to_date))
  (leave_apps.map (fun la =>
    match env.presence_types.find? (fun pt =>
        pt.leave_type == some la.leave_type && pt.requires_leave_application) with
    | none => []
    | some pt =>
      (datesFromTo la.from_date la.to_date).filterMap (fun d =>
        if week_start ≤ d ∧ d ≤ week_end then
          some { date := d
                 presence_type := pt.name
                 is_half_day := la.half_day && la.half_day_date == some d
                 expect_work_hours := pt.expect_work_hours
                 leave_application := la.name }
        else none))).flatten

/-- Work-days-per-week count from the pattern: weekdays with (hours or 0) > 0
(utils.py lines 370-375). -/
def work_days_count (p : EmployeeWorkPattern) : ℕ :=
  (p.days_of_week.filter (fun h => decide (0 < h))).length

/-- A date falls on a pattern work day: its weekday's hours are > 0
(the days_of_week[weekday] > 0 test of utils.py lines 390-391 and 405-406;
the weekday < len(days_of_week) guard is always true). -/
def is_work_day (p : EmployeeWorkPattern) (d : ℤ) : Bool :=
  decide (0 < p.days_of_week.getD (weekday d) 0)

/-- Holidays in the week that fall on pattern work days
(utils.py lines 384-392). -/
def holidays_count (env : Env) (employee : ℕ) (week_start : ℤ)
    (p : EmployeeWorkPattern) : ℕ :=
  ((List.range 7).filter (fun (i : ℕ) =>
    is_holiday env (week_start + (i : ℤ)) (some employee) &&
      is_work_day p (week_start + (i : ℤ)))).length

/-- Leave days of the week that fall on pattern work days
(the weekday filter of utils.py lines 402-406). -/
def counted_leave_days (env : Env) (employee : ℕ) (week_start : ℤ)
    (p : EmployeeWorkPattern) : List LeaveDayInfo :=
  (get_leave_days_in_week env employee week_start).filter (fun ld => is_work_day p ld.date)

/-- Full-day leave days with expect_work_hours falsy, on work days
(utils.py lines 407-413, else branch). -/
def regular_leaves_count (env : Env) (employee : ℕ) (week_start : ℤ)
    (p : EmployeeWorkPattern) : ℕ :=
  ((counted_leave_days env employee week_start p).filter (fun ld =>
    ld.expect_work_hours == 0 && !ld.is_half_day)).length

/-- Half-day leave days with expect_work_hours falsy, on work days
(utils.py lines 407-411, then branch). -/
def half_leaves_count (env : Env) (employee : ℕ) (week_start : ℤ)
    (p : EmployeeWorkPattern) : ℕ :=
  ((counted_leave_days env employee week_start p).filter (fun ld =>
    ld.expect_work_hours == 0 && ld.is_half_day)).length

/-- The company used by calculate_weekly_expected_hours_with_holidays
(utils.py lines 351-354): the employee's company, else the default company. -/
def resolved_company (env : Env) (employee : ℕ) : Option ℕ :=
  match employee_company env employee with
  | some c => some c
  | none => env.default_company

/-- The FTE weekly hours of utils.py lines 366-367: base weekly hours of the
resolved company scaled by fte_percentage (or 100 when falsy). -/
def fte_weekly_hours (env : Env) (employee : ℕ) (p : EmployeeWorkPattern) : ℚ :=
  get_base_weekly_hours env (resolved_company env employee)
    * (pyOr p.fte_percentage 100 / 100)

/-- The daily average of utils.py line 382: FTE weekly hours over the number
of work days. -/
def daily_average (env : Env) (employee : ℕ) (p : EmployeeWorkPattern) : ℚ :=
  fte_weekly_hours env employee p / (work_days_count p : ℚ)

/-- calculate_weekly_expected_hours_with_holidays (utils.py line 323). -/
def calculate_weekly_expected_hours_with_holidays (env : Env) (employee : ℕ)
    (week_start : ℤ) : ℚ :=
  let base_weekly_hours := get_base_weekly_hours env (resolved_company env employee)
  match get_work_pattern env.patterns employee week_start with
  | none => base_weekly_hours
  | some pattern =>
    let fte_percentage := pyOr pattern.fte_percentage 100
    let fte_weekly_hours := base_weekly_hours * (fte_percentage / 100)
    let work_days := work_days_count pattern
    if work_days = 0 then 0
    else
      let daily_average := fte_weekly_hours / (work_days : ℚ)
      let hc := holidays_count env employee week_start pattern
      let rc := regular_leaves_count env employee week_start pattern
      let hlc := half_leaves_count env employee week_start pattern
      max 0 (fte_weekly_hours - (hc : ℚ) * daily_average
        - (rc : ℚ) * daily_average - (hlc : ℚ) * daily_average / 2)

/-- Modelled from the claim text of C1 (spec section 4.2, weekly variant):
the same weekly formula but with fte_weekly_hours = base_weekly_hours *
fte_percentage / 100 taken literally, without the code's fallback of the
fte_percentage field to 100 when it is falsy. Used only to compare the claim
wording against the implementation. -/
def claimed_weekly_expected_hours (env : Env) (employee : ℕ) (week_start : ℤ)
    (p : EmployeeWorkPattern) : ℚ :=
  let base := get_base_weekly_hours env (resolved_company env employee)
  let fteW := base * (p.fte_percentage / 100)
  let wd := work_days_count p
  if wd = 0 then 0
  else
    let da := fteW / (wd : ℚ)
    max 0 (fteW - (holidays_count env employee week_start p : ℚ) * da
      - (regular_leaves_count env employee week_start p : ℚ) * da
      - (half_leaves_count env employee week_start p : ℚ) * da / 2)

/-- calculate_expected_hours (weekly_entry.py line 385): normal_hours from the
resolved pattern (8 when no pattern resolves); holidays return 0 regardless of
leave; approved leave returns normal_hours/2 on a half day and 0 otherwise;
else normal_hours. -/
def calculate_expected_hours (env : Env) (employee : ℕ) (date : ℤ)
    (has_approved_leave : Bool) (is_half_day : Bool) : ℚ :=
  let pattern := get_work_pattern env.patterns employee date
  let normal_hours : ℚ :=
    match pattern with
    | some p => p.get_hours_for_weekday date
    | none => 8
  if is_holiday env date (some employee) then 0
  else if has_approved_leave then
    (if is_half_day then normal_hours / 2 else 0)
  else normal_hours

/-- Weekly Entry document (the fields read by the balance chain).
docstatus: 0 = Draft, 1 = Submitted, 2 = Cancelled. -/
structure WeeklyEntry where
  employee : ℕ
  week_start : ℤ
  docstatus : ℕ
  weekly_delta : ℚ
  previous_balance : ℚ
  running_balance : ℚ
deriving Repr, DecidableEq

/-- get_previous_weekly_entry (weekly_entry.py line 286): the entry of the
same employee at week_start - 7, looking for a submitted one first and falling
back to a draft. -/
def get_previous_weekly_entry (store : List WeeklyEntry) (employee : ℕ)
    (week_start : ℤ) : Option WeeklyEntry :=
  match store.find? (fun e =>
      e.employee == employee && e.week_start == week_start - 7 && e.docstatus == 1) with
  | some e => some e
  | none =>
    store.find? (fun e =>
      e.employee == employee && e.week_start == week_start - 7 && e.docstatus == 0)

/-- get_initial_balance (weekly_entry.py line 318): the initial_balance of the
pattern active at week_start (the or-0 is the identity on rationals), 0 when
no pattern resolves. -/
def get_initial_balance (env : Env) (employee : ℕ) (week_start : ℤ) : ℚ :=
  match get_work_pattern env.patterns employee week_start with
  | some pattern => pattern.initial_balance
  | none => 0

/-- The balance part of WeeklyEntry.calculate_totals (weekly_entry.py lines
214-221): previous_balance from the previous week's entry, else the initial
balance; running_balance = previous_balance + weekly_delta. Returns the pair
(previous_balance, running_balance). -/
def compute_balances (env : Env) (store : List WeeklyEntry) (employee : ℕ)
    (week_start : ℤ) (weekly_delta : ℚ) : ℚ × ℚ :=
  let previous_balance :=
    match get_previous_weekly_entry store employee week_start with
    | some prev => prev.running_balance
    | none => get_initial_balance env employee week_start
  (previous_balance, previous_balance + weekly_delta)

/-- A stored entry carries exactly the balances that recomputing it against
the store would produce. -/
@[reducible] def balances_computed (env : Env) (store : List WeeklyEntry) (e : WeeklyEntry) : Prop :=
  (e.previous_balance, e.running_balance) =
    compute_balances env store e.employee e.week_start e.weekly_delta

/-- The per-entry effect of one step of the recalculation loop of
recalculate_future_balances (weekly_entry.py lines 360-370): the submitted
entry of the employee at week ws gets previous_balance from
get_previous_weekly_entry on the current store (else the initial balance)
and running_balance = previous_balance + its stored weekly_delta; every
other entry is left alone. -/
def update_one (env : Env) (store : List WeeklyEntry) (employee : ℕ) (ws : ℤ)
    (e : WeeklyEntry) : WeeklyEntry :=
  if e.employee == employee && e.week_start == ws && e.docstatus == 1 then
    let pb :=
      match get_previous_weekly_entry store employee ws with
      | some prev => prev.running_balance
      | none => get_initial_balance env employee ws
    { e with previous_balance := pb, running_balance := pb + e.weekly_delta }
  else e

/-- One step of the recalculation loop applied to the whole store. -/
def update_entry_balances (env : Env) (store : List WeeklyEntry) (employee : ℕ)
    (ws : ℤ) : List WeeklyEntry :=
  store.map (update_one env store employee ws)

/-- The recalculation loop of recalculate_future_balances: one
update_entry_balances step per week, in list order. -/
def apply_updates (env : Env) (employee : ℕ) (store : List WeeklyEntry)
    (ws_list : List ℤ) : List WeeklyEntry :=
  ws_list.foldl (fun st w => update_entry_balances env st employee w) store

/-- The week_starts of the submitted entries of the employee strictly after
from_week_start, in ascending order (the frappe.get_all with
ORDER BY week_start ASC of recalculate_future_balances, lines 349-358). -/
def future_week_starts (store : List WeeklyEntry) (employee : ℕ)
    (from_week_start : ℤ) : List ℤ :=
  List.insertionSort (fun a b => a ≤ b) ((store.filter (fun e =>
    e.employee == employee && decide (from_week_start < e.week_start) &&
      e.docstatus == 1)).map (fun e => e.week_start))

/-- The latest submitted entry of the employee by week_start
(SELECT running_balance ... WHERE docstatus = 1 ORDER BY week_start DESC
LIMIT 1, weekly_entry.py lines 274-279 and 373-378). -/
def latest_submitted_entry (store : List WeeklyEntry) (employee : ℕ) :
    Option WeeklyEntry :=
  (store.filter (fun e => e.employee == employee && e.docstatus == 1)).foldl
    (fun acc e =>
      match acc with
      | none => some e
      | some m => if m.week_start < e.week_start then some e else some m) none

/-- update_employee_balance (weekly_entry.py line 271) and the trailing
snapshot update of recalculate_future_balances: the employee's
custom_flexitime_balance snapshot becomes the latest submitted entry's
running_balance, and is left unchanged when no submitted entry exists. -/
def update_employee_balance (store : List WeeklyEntry) (employee : ℕ)
    (snapshot : ℚ) : ℚ :=
  match latest_submitted_entry store employee with
  | some e => e.running_balance
  | none => snapshot

/-- recalculate_future_balances (weekly_entry.py line 340): recompute the
balances of every submitted entry of the employee after from_week_start in
ascending week_start order, then refresh the employee balance snapshot.
Returns the updated store and snapshot. -/
def recalculate_future_balances (env : Env) (store : List WeeklyEntry)
    (employee : ℕ) (from_week_start : ℤ) (snapshot : ℚ) :
    List WeeklyEntry × ℚ :=
  let store' := apply_updates env employee store
    (future_week_starts store employee from_week_start)
  (store', update_employee_balance store' employee snapshot)

/-- The per-entry effect of submitting the draft entry of the employee at
week_start: validate() recomputes its balances (calculate_totals) and
docstatus becomes 1; every other entry is untouched. -/
def submit_one (env : Env) (store : List WeeklyEntry) (employee : ℕ)
    (week_start : ℤ) (e : WeeklyEntry) : WeeklyEntry :=
  if e.employee == employee && e.week_start == week_start && e.docstatus == 0 then
    let pr := compute_balances env store employee week_start e.weekly_delta
    { e with previous_balance := pr.1, running_balance := pr.2, docstatus := 1 }
  else e

/-- Submitting a draft weekly entry: the entry's balances are recomputed and
its docstatus becomes 1, and on_submit (weekly_entry.py line 255) refreshes
only the employee balance snapshot; no other entry is touched. Returns the
updated store and snapshot. -/
def submit_entry (env : Env) (store : List WeeklyEntry) (employee : ℕ)
    (week_start : ℤ) (snapshot : ℚ) : List WeeklyEntry × ℚ :=
  let store' := store.map (submit_one env store employee week_start)
  (store', update_employee_balance store' employee snapshot)

/-- The per-entry effect of cancelling the submitted entry of the employee
at week_start: its docstatus becomes 2; every other entry is untouched. -/
def cancel_one (employee : ℕ) (week_start : ℤ) (e : WeeklyEntry) : WeeklyEntry :=
  if e.employee == employee && e.week_start == week_start && e.docstatus == 1 then
    { e with docstatus := 2 }
  else e

/-- Cancelling a submitted weekly entry: docstatus becomes 2 and on_cancel
(weekly_entry.py line 260) runs recalculate_future_balances from its
week_start. Returns the updated store and snapshot. -/
def cancel_entry (env : Env) (store : List WeeklyEntry) (employee : ℕ)
    (week_start : ℤ) (snapshot : ℚ) : List WeeklyEntry × ℚ :=
  recalculate_future_balances env (store.map (cancel_one employee week_start))
    employee week_start snapshot

/-- The per-entry effect of amending the submitted entry of the employee at
week_start with a new weekly delta: calculate_totals stores the new delta
and the recomputed balances; every other entry is untouched. -/
def amend_one (env : Env) (store : List WeeklyEntry) (employee : ℕ)
    (week_start : ℤ) (new_delta : ℚ) (e : WeeklyEntry) : WeeklyEntry :=
  if e.employee == employee && e.week_start == week_start && e.docstatus == 1 then
    let pr := compute_balances env store employee week_start new_delta
    { e with weekly_delta := new_delta, previous_balance := pr.1,
             running_balance := pr.2 }
  else e

/-- Amending a submitted weekly entry after submission with a new weekly
delta: on_update_after_submit (weekly_entry.py line 265) recomputes this
entry's totals, refreshes the snapshot, then runs
recalculate_future_balances. Returns the updated store and snapshot. -/
def amend_after_submit (env : Env) (store : List WeeklyEntry) (employee : ℕ)
    (week_start : ℤ) (new_delta : ℚ) (snapshot : ℚ) : List WeeklyEntry × ℚ :=
  let store' := store.map (amend_one env store employee week_start new_delta)
  let snapshot' := update_employee_balance store' employee snapshot
  recalculate_future_balances env store' employee week_start snapshot'

/-- validate_sequential_submission (weekly_entry.py line 69) as a pass/fail
predicate: HR Managers bypass; else the entry of the same employee at
week_start - 7 (any docstatus, first match) must be submitted when it exists,
and when it does not, no strictly earlier draft entry may exist. -/
def validate_sequential_submission (is_hr_manager : Bool)
    (store : List WeeklyEntry) (employee : ℕ) (week_start : ℤ) : Bool :=
  if is_hr_manager then true
  else
    match store.find? (fun e =>
        e.employee == employee && e.week_start == week_start - 7) with
    | some prev => prev.docstatus == 1
    | none =>
      !(store.any (fun e =>
        e.employee == employee && decide (e.week_start < week_start) &&
          e.docstatus == 0))

/-- validate_week_complete (weekly_entry.py line 127) as a pass/fail
predicate: HR Managers bypass; else the submission is rejected while
current_date ≤ week_end, with week_end = week_start + 6 (set_week_end). -/
def validate_week_complete (is_hr_manager : Bool) (week_start current_date : ℤ) :
    Bool :=
  if is_hr_manager then true
  else decide (week_start + 6 < current_date)

/-- The two submission gates run by validate() on submit: the transition
Draft to Submitted goes through exactly when both pass. -/
def submission_gates_pass (is_hr_manager : Bool) (store : List WeeklyEntry)
    (employee : ℕ) (week_start current_date : ℤ) : Bool :=
  validate_sequential_submission is_hr_manager store employee week_start &&
    validate_week_complete is_hr_manager week_start current_date

/-- At most one stored weekly entry per (employee, week_start, docstatus):
the database lookups of the balance chain are then deterministic. -/
@[reducible] def uniq_week_keys (store : List WeeklyEntry) : Prop :=
  ∀ e1, e1 ∈ store → ∀ e2, e2 ∈ store →
    e1.employee = e2.employee → e1.week_start = e2.week_start →
      e1.docstatus = e2.docstatus → e1 = e2

/-- At most one stored weekly entry per (employee, week_start), regardless of
docstatus: the docstatus-free lookup of validate_sequential_submission is
then deterministic. -/
@[reducible] def uniq_week_keys_all (store : List WeeklyEntry) : Prop :=
  ∀ e1, e1 ∈ store → ∀ e2, e2 ∈ store →
    e1.employee = e2.employee → e1.week_start = e2.week_start → e1 = e2

/-- At most one submitted stored weekly entry per (employee, week_start). -/
@[reducible] def uniq_submitted (store : List WeeklyEntry) : Prop :=
  ∀ e1, e1 ∈ store → ∀ e2, e2 ∈ store →
    e1.employee = e2.employee → e1.week_start = e2.week_start →
      e1.docstatus = 1 → e2.docstatus = 1 → e1 = e2

section ConcreteInstances

/-- A committed 100 percent FTE pattern, 8 hours Monday to Friday, for
employee 1, valid from date -100 with no end. -/
def sample_pattern : EmployeeWorkPattern :=
  { name := 100, employee := 1, docstatus := 1, valid_from := -100,
    valid_to := none, fte_percentage := 100, monday_hours := 8,
    tuesday_hours := 8, wednesday_hours := 8, thursday_hours := 8,
    friday_hours := 8, saturday_hours := 0, sunday_hours := 0,
    initial_balance := 0 }

/-- An approved, submitted, full-day vacation-style leave application of
employee 1 on date 4 (the Friday of the week starting at 0). -/
def sample_leave_app : LeaveApplication :=
  { name := 50, employee := 1, status := "Approved", docstatus := 1,
    from_date := 4, to_date := 4, half_day := false, half_day_date := none,
    leave_type := 3 }

/-- A presence type for leave type 3 that requires a leave application and
does not expect work hours (a vacation-style category). -/
def sample_presence_type : PresenceType :=
  { name := 7, leave_type := some 3, requires_leave_application := true,
    expect_work_hours := 0 }

/-- Base environment: employee 1 (holiday list 5, company 10), company 10
with 40 base weekly hours, the sample pattern, no holidays, one full-day
vacation leave on the Friday of week 0. -/
def sample_env : Env :=
  { patterns := [sample_pattern],
    employees := [{ name := 1, holiday_list := some 5, company := some 10 }],
    companies := [{ name := 10, default_holiday_list := none,
                    base_weekly_hours := some 40 }],
    default_company := some 10,
    holidays := [],
    leave_applications := [sample_leave_app],
    presence_types := [sample_presence_type] }

/-- The sample pattern with fte_percentage stored as 0 (a value Python
treats as falsy, so the code substitutes 100). -/
def zero_fte_pattern : EmployeeWorkPattern :=
  { sample_pattern with fte_percentage := 0 }

/-- Environment whose resolving pattern stores fte_percentage 0 and which has
no holidays and no leaves in week 0. -/
def zero_fte_env : Env :=
  { sample_env with patterns := [zero_fte_pattern], leave_applications := [] }

/-- Environment with a Monday holiday (date 0, list 5) and no leaves. -/
def holiday_env : Env :=
  { sample_env with leave_applications := [],
                    holidays := [{ parent := 5, holiday_date := 0 }] }

/-- Environment where date 0 is both a holiday and a full-day non-deducting
leave day (the double-counting scenario). -/
def overlap_env : Env :=
  { sample_env with holidays := [{ parent := 5, holiday_date := 0 }],
                    leave_applications :=
                      [{ sample_leave_app with from_date := 0, to_date := 0 }] }

/-- Environment whose only presence type deducts from the balance
(expect_work_hours 1, the Flex Off category). -/
def flex_off_env : Env :=
  { sample_env with
      presence_types := [{ sample_presence_type with expect_work_hours := 1 }],
      leave_applications := [{ sample_leave_app with from_date := 0, to_date := 0 }] }

/-- Environment with no work pattern at all (and otherwise like the base). -/
def no_pattern_env : Env :=
  { sample_env with patterns := [], leave_applications := [] }

/-- An empty environment: no patterns, employees, companies, holidays,
leaves or presence types. -/
def empty_env : Env :=
  { patterns := [], employees := [], companies := [], default_company := none,
    holidays := [], leave_applications := [], presence_types := [] }

/-- Submitted weekly entry of employee 1, week 0, delta +5, balances as the
code computes them from initial balance 0. -/
def entry_week0 : WeeklyEntry :=
  { employee := 1, week_start := 0, docstatus := 1, weekly_delta := 5,
    previous_balance := 0, running_balance := 5 }

/-- Submitted weekly entry of week 7, delta -3, chained after week 0. -/
def entry_week7 : WeeklyEntry :=
  { entry_week0 with week_start := 7, weekly_delta := -3,
                     previous_balance := 5, running_balance := 2 }

/-- Submitted weekly entry of week 14, delta +4, chained after week 7. -/
def entry_week14 : WeeklyEntry :=
  { entry_week0 with week_start := 14, weekly_delta := 4,
                     previous_balance := 2, running_balance := 6 }

/-- A three-week gapless submitted chain with deltas +5, -3, +4. -/
def chain_store : List WeeklyEntry := [entry_week0, entry_week7, entry_week14]

/-- A draft entry of employee 1 at week 0 whose stored running balance is 10. -/
def draft_week0 : WeeklyEntry :=
  { entry_week0 with docstatus := 0, weekly_delta := 0, running_balance := 10 }

/-- A draft week-0 entry with delta +5 about to be submitted. -/
def draft_to_submit : WeeklyEntry := { entry_week0 with docstatus := 0 }

/-- A later already-submitted week-7 entry whose balances are stale: they
were computed while the week-0 entry did not yet count. -/
def stale_week7 : WeeklyEntry :=
  { entry_week0 with week_start := 7, weekly_delta := 0,
                     previous_balance := 0, running_balance := 0 }

/-- The week-7 entry as the cascade recomputes it after cancelling week 0:
previous_balance 0 (the initial balance), running_balance -3. -/
def cancelled_chain_week7 : WeeklyEntry :=
  { employee := 1, week_start := 7, docstatus := 1, weekly_delta := -3,
    previous_balance := 0, running_balance := -3 }

end ConcreteInstances

section Lemmas

/-- find? returns the unique element satisfying the predicate. -/
theorem find?_eq_some_of_unique {α : Type} {p : α → Bool} {l : List α} {x : α}
    (hmem : x ∈ l) (hpx : p x = true) (huniq : ∀ y ∈ l, p y = true → y = x) :
    l.find? p = some x := by
  induction l with
  | nil => cases hmem
  | cons a as ih =>
    by_cases ha : p a = true
    · have hx : a = x := huniq a (List.mem_cons_self a as) ha
      subst hx
      simp [List.find?, ha]
    · have hax : x ≠ a := by
        intro h
        exact ha (h ▸ hpx)
      simp only [Bool.not_eq_true] at ha
      have hxas : x ∈ as := by
        rcases List.mem_cons.mp hmem with h | h
        · exact absurd h hax
        · exact h
      simp [List.find?, ha]
      exact ih hxas (fun y hy hpy => huniq y (List.mem_cons_of_mem a hy) hpy)

/-- find? over a map whose function preserves the predicate and fixes every
element satisfying it. -/
theorem find?_map_fixed {α : Type} {f : α → α} {q : α → Bool} {l : List α}
    (hpres : ∀ x, q (f x) = q x) (hfix : ∀ x, q x = true → f x = x) :
    (l.map f).find? q = l.find? q := by
  induction l with
  | nil => rfl
  | cons a as ih =>
    by_cases ha : q a = true
    · simp [List.find?, hpres a, ha, hfix a ha]
    · simp only [Bool.not_eq_true] at ha
      simp [List.find?, hpres a, ha, ih]

/-- When a submitted entry of the employee sits at week_start - 7, the
previous-entry lookup returns it. -/
theorem get_previous_of_submitted {store : List WeeklyEntry} {emp : ℕ} {ws : ℤ}
    {e : WeeklyEntry} (huniq : uniq_week_keys store) (hmem : e ∈ store)
    (hemp : e.employee = emp) (hws : e.week_start = ws - 7) (hd : e.docstatus = 1) :
    get_previous_weekly_entry store emp ws = some e := by
  have h1 : store.find? (fun x =>
      x.employee == emp && x.week_start == ws - 7 && x.docstatus == 1) = some e := by
    apply find?_eq_some_of_unique hmem
    · simp [hemp, hws, hd]
    · intro y hy hpy
      simp only [Bool.and_eq_true, beq_iff_eq] at hpy
      exact huniq y hy e hmem (by rw [hpy.1.1, hemp]) (by rw [hpy.1.2, hws])
        (by rw [hpy.2, hd])
  unfold get_previous_weekly_entry
  rw [h1]

/-- When no entry of the employee sits at week_start - 7 as submitted or
draft, the previous-entry lookup fails. -/
theorem get_previous_of_none {store : List WeeklyEntry} {emp : ℕ} {ws : ℤ}
    (h : ∀ e ∈ store, e.employee = emp → e.week_start = ws - 7 →
      e.docstatus ≠ 0 ∧ e.docstatus ≠ 1) :
    get_previous_weekly_entry store emp ws = none := by
  have h1 : store.find? (fun x =>
      x.employee == emp && x.week_start == ws - 7 && x.docstatus == 1) = none := by
    rw [List.find?_eq_none]
    intro x hx hpx
    simp only [Bool.and_eq_true, beq_iff_eq] at hpx
    exact (h x hx hpx.1.1 hpx.1.2).2 hpx.2
  have h0 : store.find? (fun x =>
      x.employee == emp && x.week_start == ws - 7 && x.docstatus == 0) = none := by
    rw [List.find?_eq_none]
    intro x hx hpx
    simp only [Bool.and_eq_true, beq_iff_eq] at hpx
    exact (h x hx hpx.1.1 hpx.1.2).1 hpx.2
  unfold get_previous_weekly_entry
  rw [h1, h0]

/-- When no submitted entry sits at week_start - 7 but a draft one does, the
previous-entry lookup falls back to the draft. -/
theorem get_previous_of_draft {store : List WeeklyEntry} {emp : ℕ} {ws : ℤ}
    {e : WeeklyEntry} (huniq : uniq_week_keys store)
    (hnosub : ∀ x ∈ store, x.employee = emp → x.week_start = ws - 7 →
      x.docstatus ≠ 1)
    (hmem : e ∈ store) (hemp : e.employee = emp) (hws : e.week_start = ws - 7)
    (hd : e.docstatus = 0) :
    get_previous_weekly_entry store emp ws = some e := by
  have h1 : store.find? (fun x =>
      x.employee == emp && x.week_start == ws - 7 && x.docstatus == 1) = none := by
    rw [List.find?_eq_none]
    intro x hx hpx
    simp only [Bool.and_eq_true, beq_iff_eq] at hpx
    exact hnosub x hx hpx.1.1 hpx.1.2 hpx.2
  have h0 : store.find? (fun x =>
      x.employee == emp && x.week_start == ws - 7 && x.docstatus == 0) = some e := by
    apply find?_eq_some_of_unique hmem
    · simp [hemp, hws, hd]
    · intro y hy hpy
      simp only [Bool.and_eq_true, beq_iff_eq] at hpy
      exact huniq y hy e hmem (by rw [hpy.1.1, hemp]) (by rw [hpy.1.2, hws])
        (by rw [hpy.2, hd])
  unfold get_previous_weekly_entry
  rw [h1, h0]

/-- update_one never changes the employee field. -/
theorem update_one_employee (env : Env) (st : List WeeklyEntry) (emp : ℕ)
    (ws : ℤ) (e : WeeklyEntry) : (update_one env st emp ws e).employee = e.employee := by
  unfold update_one
  split <;> rfl

/-- update_one never changes the week_start field. -/
theorem update_one_week_start (env : Env) (st : List WeeklyEntry) (emp : ℕ)
    (ws : ℤ) (e : WeeklyEntry) :
    (update_one env st emp ws e).week_start = e.week_start := by
  unfold update_one
  split <;> rfl

/-- update_one never changes the docstatus field. -/
theorem update_one_docstatus (env : Env) (st : List WeeklyEntry) (emp : ℕ)
    (ws : ℤ) (e : WeeklyEntry) :
    (update_one env st emp ws e).docstatus = e.docstatus := by
  unfold update_one
  split <;> rfl

/-- update_one never changes the weekly_delta field. -/
theorem update_one_weekly_delta (env : Env) (st : List WeeklyEntry) (emp : ℕ)
    (ws : ℤ) (e : WeeklyEntry) :
    (update_one env st emp ws e).weekly_delta = e.weekly_delta := by
  unfold update_one
  split <;> rfl

/-- update_one leaves an entry alone unless it is the submitted entry of the
employee at the updated week. -/
theorem update_one_of_other (env : Env) (st : List WeeklyEntry) (emp : ℕ)
    (ws : ℤ) (e : WeeklyEntry)
    (h : ¬(e.employee = emp ∧ e.week_start = ws ∧ e.docstatus = 1)) :
    update_one env st emp ws e = e := by
  unfold update_one
  rw [if_neg]
  simp only [Bool.and_eq_true, beq_iff_eq]
  intro hc
  exact h ⟨hc.1.1, hc.1.2, hc.2⟩

/-- On the submitted entry of the employee at the updated week, update_one
stores exactly the balances compute_balances yields from the current store. -/
theorem update_one_of_key (env : Env) (st : List WeeklyEntry) (emp : ℕ)
    (ws : ℤ) (e : WeeklyEntry) (h1 : e.employee = emp) (h2 : e.week_start = ws)
    (h3 : e.docstatus = 1) :
    ((update_one env st emp ws e).previous_balance,
     (update_one env st emp ws e).running_balance)
      = compute_balances env st emp ws e.weekly_delta := by
  unfold update_one compute_balances
  rw [if_pos (by simp [h1, h2, h3])]

/-- A key-field lookup is unchanged by an update step at a different key. -/
theorem find?_key_update (env : Env) (st : List WeeklyEntry) (emp : ℕ) (u : ℤ)
    (emp' : ℕ) (ws : ℤ) (d : ℕ) (hne : ¬(emp' = emp ∧ ws = u ∧ d = 1)) :
    (update_entry_balances env st emp u).find? (fun e =>
        e.employee == emp' && e.week_start == ws && e.docstatus == d)
      = st.find? (fun e =>
        e.employee == emp' && e.week_start == ws && e.docstatus == d) := by
  unfold update_entry_balances
  apply find?_map_fixed
  · intro x
    simp only [update_one_employee, update_one_week_start, update_one_docstatus]
  · intro x hx
    simp only [Bool.and_eq_true, beq_iff_eq] at hx
    apply update_one_of_other
    intro hc
    exact hne ⟨hx.1.1.symm.trans hc.1, hx.1.2.symm.trans hc.2.1,
      hx.2.symm.trans hc.2.2⟩

/-- The previous-entry lookup is unchanged by an update step at a week other
than week_start - 7 of the looked-up week (for the same employee). -/
theorem get_previous_update_other (env : Env) (st : List WeeklyEntry)
    (emp : ℕ) (u : ℤ) (emp' : ℕ) (ws : ℤ) (hne : ¬(emp' = emp ∧ ws - 7 = u)) :
    get_previous_weekly_entry (update_entry_balances env st emp u) emp' ws
      = get_previous_weekly_entry st emp' ws := by
  unfold get_previous_weekly_entry
  rw [find?_key_update env st emp u emp' (ws - 7) 1 (fun h => hne ⟨h.1, h.2.1⟩),
      find?_key_update env st emp u emp' (ws - 7) 0
        (fun h => absurd h.2.2 (by decide))]

/-- apply_updates over the empty week list is the identity. -/
theorem apply_updates_nil (env : Env) (emp : ℕ) (st : List WeeklyEntry) :
    apply_updates env emp st [] = st := rfl

/-- apply_updates peels one week off the front. -/
theorem apply_updates_cons (env : Env) (emp : ℕ) (st : List WeeklyEntry)
    (u : ℤ) (wl : List ℤ) :
    apply_updates env emp st (u :: wl)
      = apply_updates env emp (update_entry_balances env st emp u) wl := rfl

/-- The previous-entry lookup is unchanged by a whole cascade whose weeks all
differ from week_start - 7 of the looked-up week. -/
theorem get_previous_after_updates (env : Env) (emp emp' : ℕ) :
    ∀ (wl : List ℤ) (st : List WeeklyEntry) (ws : ℤ),
      (∀ u ∈ wl, ¬(emp' = emp ∧ ws - 7 = u)) →
      get_previous_weekly_entry (apply_updates env emp st wl) emp' ws
        = get_previous_weekly_entry st emp' ws := by
  intro wl
  induction wl with
  | nil =>
    intro st ws _
    rfl
  | cons u rest ih =>
    intro st ws h
    rw [apply_updates_cons,
      ih _ ws (fun v hv => h v (List.mem_cons_of_mem u hv)),
      get_previous_update_other env st emp u emp' ws (h u (List.mem_cons_self u rest))]

/-- A submitted-key lookup is unchanged by a whole cascade whose weeks all
differ from the looked-up week. -/
theorem find?_submitted_after_updates (env : Env) (emp emp' : ℕ) :
    ∀ (wl : List ℤ) (st : List WeeklyEntry) (ws : ℤ),
      (∀ u ∈ wl, ¬(emp' = emp ∧ ws = u)) →
      (apply_updates env emp st wl).find? (fun e =>
          e.employee == emp' && e.week_start == ws && e.docstatus == 1)
        = st.find? (fun e =>
          e.employee == emp' && e.week_start == ws && e.docstatus == 1) := by
  intro wl
  induction wl with
  | nil =>
    intro st ws _
    rfl
  | cons u rest ih =>
    intro st ws h
    rw [apply_updates_cons,
      ih _ ws (fun v hv => h v (List.mem_cons_of_mem u hv)),
      find?_key_update env st emp u emp' ws 1
        (fun hc => h u (List.mem_cons_self u rest) ⟨hc.1, hc.2.1⟩)]

/-- Every entry of the original store has a counterpart with the same key
fields in the cascaded store. -/
theorem apply_updates_key_forward (env : Env) (emp : ℕ) :
    ∀ (wl : List ℤ) (st : List WeeklyEntry) (e : WeeklyEntry), e ∈ st →
      ∃ x ∈ apply_updates env emp st wl,
        x.employee = e.employee ∧ x.week_start = e.week_start
          ∧ x.docstatus = e.docstatus := by
  intro wl
  induction wl with
  | nil =>
    intro st e he
    exact ⟨e, he, rfl, rfl, rfl⟩
  | cons u rest ih =>
    intro st e he
    have hu : update_one env st emp u e ∈ update_entry_balances env st emp u :=
      List.mem_map.mpr ⟨e, he, rfl⟩
    rcases ih (update_entry_balances env st emp u) (update_one env st emp u e) hu
      with ⟨x, hx, hk1, hk2, hk3⟩
    rw [apply_updates_cons]
    refine ⟨x, hx, ?_, ?_, ?_⟩
    · rw [hk1, update_one_employee]
    · rw [hk2, update_one_week_start]
    · rw [hk3, update_one_docstatus]

/-- Every entry of a cascaded store corresponds to an entry of the original
store with the same key fields. -/
theorem apply_updates_key_origin (env : Env) (emp : ℕ) :
    ∀ (wl : List ℤ) (st : List WeeklyEntry) (x : WeeklyEntry),
      x ∈ apply_updates env emp st wl →
      ∃ e ∈ st, x.employee = e.employee ∧ x.week_start = e.week_start
        ∧ x.docstatus = e.docstatus := by
  intro wl
  induction wl with
  | nil =>
    intro st x hx
    exact ⟨x, hx, rfl, rfl, rfl⟩
  | cons u rest ih =>
    intro st x hx
    rw [apply_updates_cons] at hx
    rcases ih _ x hx with ⟨y, hy, hxy⟩
    rcases List.mem_map.mp hy with ⟨e, he, rfl⟩
    refine ⟨e, he, ?_, ?_, ?_⟩
    · rw [hxy.1, update_one_employee]
    · rw [hxy.2.1, update_one_week_start]
    · rw [hxy.2.2, update_one_docstatus]

/-- One update step preserves submitted-key uniqueness. -/
theorem uniq_submitted_update (env : Env) (st : List WeeklyEntry) (emp : ℕ)
    (u : ℤ) (h : uniq_submitted st) :
    uniq_submitted (update_entry_balances env st emp u) := by
  intro x1 hx1 x2 hx2 hemp hws hd1 hd2
  rcases List.mem_map.mp hx1 with ⟨e1, he1, rfl⟩
  rcases List.mem_map.mp hx2 with ⟨e2, he2, rfl⟩
  rw [update_one_employee, update_one_employee] at hemp
  rw [update_one_week_start, update_one_week_start] at hws
  rw [update_one_docstatus] at hd1
  rw [update_one_docstatus] at hd2
  rw [h e1 he1 e2 he2 hemp hws hd1 hd2]

/-- A whole cascade preserves submitted-key uniqueness. -/
theorem uniq_submitted_updates (env : Env) (emp : ℕ) :
    ∀ (wl : List ℤ) (st : List WeeklyEntry),
      uniq_submitted st → uniq_submitted (apply_updates env emp st wl) := by
  intro wl
  induction wl with
  | nil =>
    intro st h
    exact h
  | cons u rest ih =>
    intro st h
    rw [apply_updates_cons]
    exact ih _ (uniq_submitted_update env st emp u h)

/-- After one update step, the submitted entry of the employee at the
updated week stores exactly the balances compute_balances yields from the
pre-step store. -/
theorem update_entry_hits (env : Env) (st : List WeeklyEntry) (emp : ℕ)
    (u : ℤ) (x : WeeklyEntry) (hx : x ∈ update_entry_balances env st emp u)
    (h1 : x.employee = emp) (h2 : x.week_start = u) (h3 : x.docstatus = 1) :
    (x.previous_balance, x.running_balance)
      = compute_balances env st emp u x.weekly_delta := by
  rcases List.mem_map.mp hx with ⟨e, he, rfl⟩
  rw [update_one_employee] at h1
  rw [update_one_week_start] at h2
  rw [update_one_docstatus] at h3
  rw [update_one_weekly_delta]
  exact update_one_of_key env st emp u e h1 h2 h3

/-- find? finds something whenever a satisfying element is present. -/
theorem find?_of_mem {α : Type} {p : α → Bool} {l : List α} {e : α}
    (he : e ∈ l) (hp : p e = true) :
    ∃ x, l.find? p = some x ∧ p x = true ∧ x ∈ l := by
  cases hf : l.find? p with
  | none => exact absurd hp (List.find?_eq_none.mp hf e he)
  | some x => exact ⟨x, rfl, List.find?_some hf, List.mem_of_find?_eq_some hf⟩

/-- Cascade correctness: after applying the recalculation steps for a
strictly ascending list of weeks, every submitted entry of the employee
whose week is in the list carries exactly the balances that recomputing it
against the final store yields. -/
theorem apply_updates_balances (env : Env) (emp : ℕ) :
    ∀ (wl : List ℤ) (st : List WeeklyEntry),
      uniq_submitted st →
      List.Pairwise (· < ·) wl →
      ∀ e ∈ apply_updates env emp st wl, e.employee = emp → e.docstatus = 1 →
        e.week_start ∈ wl →
        balances_computed env (apply_updates env emp st wl) e := by
  intro wl
  induction wl with
  | nil =>
    intro st _ _ e _ _ _ hw
    cases hw
  | cons u rest ih =>
    intro st huniq hpw e he hemp hd hw
    have hult := (List.pairwise_cons.mp hpw).1
    have hpw_rest := (List.pairwise_cons.mp hpw).2
    rw [apply_updates_cons] at he ⊢
    rcases List.mem_cons.mp hw with hwu | hwrest
    · -- e sits at the week updated in this step
      have hfind : (apply_updates env emp (update_entry_balances env st emp u) rest).find?
            (fun x => x.employee == emp && x.week_start == u && x.docstatus == 1)
          = (update_entry_balances env st emp u).find?
            (fun x => x.employee == emp && x.week_start == u && x.docstatus == 1) :=
        find?_submitted_after_updates env emp emp rest _ u
          (fun v hv hc => by
            have h1 := hult v hv
            have h2 := hc.2
            omega)
      rcases find?_of_mem
          (p := fun x => x.employee == emp && x.week_start == u && x.docstatus == 1)
          he (by simp [hemp, hwu, hd])
        with ⟨x, hx_some, hx_pred, hx_mem⟩
      simp only [Bool.and_eq_true, beq_iff_eq] at hx_pred
      have huf : uniq_submitted
          (apply_updates env emp (update_entry_balances env st emp u) rest) :=
        uniq_submitted_updates env emp rest _ (uniq_submitted_update env st emp u huniq)
      have hex : e = x :=
        huf e he x hx_mem (hemp.trans hx_pred.1.1.symm)
          (hwu.trans hx_pred.1.2.symm) hd hx_pred.2
      rw [hfind] at hx_some
      have hxmemU := List.mem_of_find?_eq_some hx_some
      have hxpredU := List.find?_some hx_some
      simp only [Bool.and_eq_true, beq_iff_eq] at hxpredU
      have hhits := update_entry_hits env st emp u x hxmemU
        hxpredU.1.1 hxpredU.1.2 hxpredU.2
      have hlook : get_previous_weekly_entry
            (apply_updates env emp (update_entry_balances env st emp u) rest) emp u
          = get_previous_weekly_entry st emp u := by
        rw [get_previous_after_updates env emp emp rest _ u
            (fun v hv hc => by
              have h1 := hult v hv
              have h2 := hc.2
              omega),
          get_previous_update_other env st emp u emp u (fun hc => by
            have h2 := hc.2
            omega)]
      have hcfinal : compute_balances env
            (apply_updates env emp (update_entry_balances env st emp u) rest)
            x.employee x.week_start x.weekly_delta
          = compute_balances env st emp u x.weekly_delta := by
        unfold compute_balances
        rw [hxpredU.1.1, hxpredU.1.2, hlook]
      unfold balances_computed
      rw [hex, hcfinal]
      exact hhits
    · exact ih _ (uniq_submitted_update env st emp u huniq) hpw_rest e he hemp hd hwrest

/-- Auxiliary: the later-week fold starting from some m yields an element of
the accumulator-or-list whose week no element exceeds. -/
theorem latest_fold_some :
    ∀ (l : List WeeklyEntry) (m : WeeklyEntry),
      ∃ r, l.foldl (fun acc e =>
          match acc with
          | none => some e
          | some m' => if m'.week_start < e.week_start then some e else some m')
          (some m) = some r
        ∧ (r = m ∨ r ∈ l) ∧ m.week_start ≤ r.week_start
        ∧ ∀ x ∈ l, x.week_start ≤ r.week_start := by
  intro l
  induction l with
  | nil =>
    intro m
    exact ⟨m, rfl, Or.inl rfl, le_refl _, by simp⟩
  | cons a t ih =>
    intro m
    by_cases h : m.week_start < a.week_start
    · rcases ih a with ⟨r, hr, hra, hle, hmax⟩
      refine ⟨r, ?_, ?_, ?_, ?_⟩
      · rw [List.foldl_cons]
        simpa [h] using hr
      · rcases hra with h1 | h1
        · exact Or.inr (h1 ▸ List.mem_cons_self a t)
        · exact Or.inr (List.mem_cons_of_mem a h1)
      · exact le_of_lt (lt_of_lt_of_le h hle)
      · intro x hx
        rcases List.mem_cons.mp hx with h1 | h1
        · rw [h1]
          exact hle
        · exact hmax x h1
    · rcases ih m with ⟨r, hr, hra, hle, hmax⟩
      refine ⟨r, ?_, ?_, hle, ?_⟩
      · rw [List.foldl_cons]
        simpa [h] using hr
      · rcases hra with h1 | h1
        · exact Or.inl h1
        · exact Or.inr (List.mem_cons_of_mem a h1)
      · intro x hx
        rcases List.mem_cons.mp hx with h1 | h1
        · rw [h1]
          exact le_trans (le_of_not_lt h) hle
        · exact hmax x h1

/-- When no submitted entry of the employee exists, the latest-submitted
lookup fails and the balance snapshot is left unchanged. -/
theorem update_employee_balance_of_none (store : List WeeklyEntry) (emp : ℕ)
    (snapshot : ℚ) (h : ∀ e ∈ store, ¬(e.employee = emp ∧ e.docstatus = 1)) :
    update_employee_balance store emp snapshot = snapshot := by
  unfold update_employee_balance latest_submitted_entry
  have hf : store.filter (fun e => e.employee == emp && e.docstatus == 1) = [] := by
    rw [List.filter_eq_nil_iff]
    intro e he
    simp only [Bool.and_eq_true, beq_iff_eq, not_and]
    intro h1 h2
    exact h e he ⟨h1, h2⟩
  rw [hf]
  rfl

/-- When some submitted entry of the employee exists, the balance snapshot
becomes the running_balance of a submitted entry of maximal week_start. -/
theorem update_employee_balance_of_some (store : List WeeklyEntry) (emp : ℕ)
    (snapshot : ℚ) (e : WeeklyEntry) (he : e ∈ store) (hemp : e.employee = emp)
    (hd : e.docstatus = 1) :
    ∃ m ∈ store, m.employee = emp ∧ m.docstatus = 1
      ∧ (∀ x ∈ store, x.employee = emp → x.docstatus = 1 →
          x.week_start ≤ m.week_start)
      ∧ update_employee_balance store emp snapshot = m.running_balance := by
  have hmemf : e ∈ store.filter (fun x => x.employee == emp && x.docstatus == 1) := by
    rw [List.mem_filter]
    exact ⟨he, by simp [hemp, hd]⟩
  unfold update_employee_balance latest_submitted_entry
  cases hfl : store.filter (fun x => x.employee == emp && x.docstatus == 1) with
  | nil =>
    rw [hfl] at hmemf
    cases hmemf
  | cons a t =>
    rcases latest_fold_some t a with ⟨r, hr, hra, _, hmax⟩
    have hrn : r ∈ a :: t := by
      rcases hra with h1 | h1
      · exact h1 ▸ List.mem_cons_self a t
      · exact List.mem_cons_of_mem a h1
    have hrf : r ∈ store.filter (fun x => x.employee == emp && x.docstatus == 1) := by
      rw [hfl]
      exact hrn
    have hrs := List.mem_filter.mp hrf
    have hrp := hrs.2
    simp only [Bool.and_eq_true, beq_iff_eq] at hrp
    refine ⟨r, hrs.1, hrp.1, hrp.2, ?_, ?_⟩
    · intro x hx hxe hxd
      have hxf : x ∈ store.filter (fun y => y.employee == emp && y.docstatus == 1) := by
        rw [List.mem_filter]
        exact ⟨hx, by simp [hxe, hxd]⟩
      rw [hfl] at hxf
      rcases List.mem_cons.mp hxf with h1 | h1
      · rcases hra with h2 | h2
        · rw [h1, h2]
        · rw [h1]
          rcases latest_fold_some t a with ⟨r2, hr2, _, hle2, _⟩
          rw [hr] at hr2
          cases hr2
          exact hle2
      · exact hmax x h1
    · rw [List.foldl_cons]
      have : (match (none : Option WeeklyEntry) with
          | none => some a
          | some m' => if m'.week_start < a.week_start then some a
            else some m') = some a := rfl
      rw [this, hr]

/-- The weeks of the cascade list are sorted ascending. -/
theorem future_week_starts_sorted (st : List WeeklyEntry) (emp : ℕ) (w : ℤ) :
    List.Pairwise (fun a b => a ≤ b) (future_week_starts st emp w) :=
  List.sorted_insertionSort (fun a b => a ≤ b) _

/-- The cascade week list has no duplicates when the filtered submitted
sublist has none and submitted keys are unique. -/
theorem future_week_starts_nodup (st : List WeeklyEntry) (emp : ℕ) (w : ℤ)
    (hnd : (st.filter (fun e => e.employee == emp
        && decide (w < e.week_start) && e.docstatus == 1)).Nodup)
    (huniq : uniq_submitted st) :
    (future_week_starts st emp w).Nodup := by
  unfold future_week_starts
  rw [List.Perm.nodup_iff (List.perm_insertionSort _ _)]
  apply List.Nodup.map_on ?_ hnd
  intro x hx y hy hxy
  have hx2 := List.mem_filter.mp hx
  have hy2 := List.mem_filter.mp hy
  have hxp := hx2.2
  have hyp := hy2.2
  simp only [Bool.and_eq_true, beq_iff_eq, decide_eq_true_eq] at hxp hyp
  exact huniq x hx2.1 y hy2.1 (hxp.1.1.trans hyp.1.1.symm) hxy hxp.2 hyp.2

/-- Sorted plus no-duplicates gives strict ascent. -/
theorem pairwise_lt_of_sorted_nodup (l : List ℤ)
    (hs : List.Pairwise (fun a b => a ≤ b) l) (hnd : l.Nodup) :
    List.Pairwise (fun a b => a < b) l :=
  (hs.and hnd).imp (fun h => lt_of_le_of_ne h.1 h.2)

/-- Filtering a map that preserves the predicate and fixes every kept
element equals filtering the original list. -/
theorem filter_map_eq {α : Type} (l : List α) (f : α → α) (p : α → Bool)
    (hp : ∀ x ∈ l, p (f x) = p x) (hid : ∀ x ∈ l, p x = true → f x = x) :
    (l.map f).filter p = l.filter p := by
  induction l with
  | nil => rfl
  | cons a t ih =>
    have ht := ih (fun x hx => hp x (List.mem_cons_of_mem a hx))
      (fun x hx => hid x (List.mem_cons_of_mem a hx))
    rw [List.map_cons, List.filter_cons, List.filter_cons,
      hp a (List.mem_cons_self a t)]
    by_cases h : p a = true
    · rw [h]
      simp only [if_true]
      rw [hid a (List.mem_cons_self a t) h, ht]
    · simp only [Bool.not_eq_true] at h
      rw [h]
      simp only [Bool.false_eq_true, if_false]
      exact ht

/-- An element fixed by the map function stays in the mapped list. -/
theorem mem_map_of_fix {α : Type} {l : List α} {f : α → α} {e : α}
    (he : e ∈ l) (hfe : f e = e) : e ∈ l.map f :=
  List.mem_map.mpr ⟨e, he, hfe⟩

/-- A map whose result is only submitted where it fixed the entry preserves
submitted-key uniqueness. -/
theorem uniq_submitted_map_fix (st : List WeeklyEntry) (f : WeeklyEntry → WeeklyEntry)
    (h : uniq_submitted st) (hf : ∀ x ∈ st, (f x).docstatus = 1 → f x = x) :
    uniq_submitted (st.map f) := by
  intro x1 hx1 x2 hx2 hemp hws hd1 hd2
  rcases List.mem_map.mp hx1 with ⟨e1, he1, rfl⟩
  rcases List.mem_map.mp hx2 with ⟨e2, he2, rfl⟩
  have h1 := hf e1 he1 hd1
  have h2 := hf e2 he2 hd2
  rw [h1] at hemp hws hd1 ⊢
  rw [h2] at hemp hws hd2 ⊢
  exact h e1 he1 e2 he2 hemp hws hd1 hd2

/-- A key-field-preserving map preserves submitted-key uniqueness. -/
theorem uniq_submitted_map_keys (st : List WeeklyEntry)
    (f : WeeklyEntry → WeeklyEntry) (h : uniq_submitted st)
    (hemp : ∀ x, (f x).employee = x.employee)
    (hws : ∀ x, (f x).week_start = x.week_start)
    (hd : ∀ x, (f x).docstatus = x.docstatus) :
    uniq_submitted (st.map f) := by
  intro x1 hx1 x2 hx2 hemp2 hws2 hd1 hd2
  rcases List.mem_map.mp hx1 with ⟨e1, he1, rfl⟩
  rcases List.mem_map.mp hx2 with ⟨e2, he2, rfl⟩
  rw [hemp e1, hemp e2] at hemp2
  rw [hws e1, hws e2] at hws2
  rw [hd e1] at hd1
  rw [hd e2] at hd2
  rw [h e1 he1 e2 he2 hemp2 hws2 hd1 hd2]

/-- cancel_one leaves an entry alone whenever its result is still submitted. -/
theorem cancel_one_fix_submitted (emp : ℕ) (w : ℤ) (x : WeeklyEntry)
    (h : (cancel_one emp w x).docstatus = 1) : cancel_one emp w x = x := by
  by_cases hc : (x.employee == emp && x.week_start == w && x.docstatus == 1) = true
  · unfold cancel_one at h
    rw [if_pos hc] at h
    simp at h
  · unfold cancel_one
    rw [if_neg hc]

/-- The cascade filter predicate is unchanged by cancel_one. -/
theorem cancel_one_pred (emp : ℕ) (w : ℤ) (x : WeeklyEntry) :
    ((cancel_one emp w x).employee == emp
      && decide (w < (cancel_one emp w x).week_start)
      && (cancel_one emp w x).docstatus == 1)
    = (x.employee == emp && decide (w < x.week_start) && x.docstatus == 1) := by
  unfold cancel_one
  split
  · rename_i hc
    simp only [Bool.and_eq_true, beq_iff_eq] at hc
    simp [hc.1.2, lt_irrefl]
  · rfl

/-- cancel_one leaves alone every entry the cascade filter keeps. -/
theorem cancel_one_fix_pred (emp : ℕ) (w : ℤ) (x : WeeklyEntry)
    (h : (x.employee == emp && decide (w < x.week_start) && x.docstatus == 1)
      = true) :
    cancel_one emp w x = x := by
  unfold cancel_one
  simp only [Bool.and_eq_true, beq_iff_eq, decide_eq_true_eq] at h
  rw [if_neg]
  simp only [Bool.and_eq_true, beq_iff_eq]
  intro hc
  rw [hc.1.2] at h
  exact absurd h.1.2 (lt_irrefl w)

/-- amend_one never changes the employee field. -/
theorem amend_one_employee (env : Env) (store : List WeeklyEntry) (emp : ℕ)
    (w : ℤ) (nd : ℚ) (x : WeeklyEntry) :
    (amend_one env store emp w nd x).employee = x.employee := by
  unfold amend_one
  split <;> rfl

/-- amend_one never changes the week_start field. -/
theorem amend_one_week_start (env : Env) (store : List WeeklyEntry) (emp : ℕ)
    (w : ℤ) (nd : ℚ) (x : WeeklyEntry) :
    (amend_one env store emp w nd x).week_start = x.week_start := by
  unfold amend_one
  split <;> rfl

/-- amend_one never changes the docstatus field. -/
theorem amend_one_docstatus (env : Env) (store : List WeeklyEntry) (emp : ℕ)
    (w : ℤ) (nd : ℚ) (x : WeeklyEntry) :
    (amend_one env store emp w nd x).docstatus = x.docstatus := by
  unfold amend_one
  split <;> rfl

/-- The cascade filter predicate is unchanged by amend_one. -/
theorem amend_one_pred (env : Env) (store : List WeeklyEntry) (emp : ℕ)
    (w : ℤ) (nd : ℚ) (x : WeeklyEntry) :
    ((amend_one env store emp w nd x).employee == emp
      && decide (w < (amend_one env store emp w nd x).week_start)
      && (amend_one env store emp w nd x).docstatus == 1)
    = (x.employee == emp && decide (w < x.week_start) && x.docstatus == 1) := by
  rw [amend_one_employee, amend_one_week_start, amend_one_docstatus]

/-- amend_one leaves alone every entry the cascade filter keeps. -/
theorem amend_one_fix_pred (env : Env) (store : List WeeklyEntry) (emp : ℕ)
    (w : ℤ) (nd : ℚ) (x : WeeklyEntry)
    (h : (x.employee == emp && decide (w < x.week_start) && x.docstatus == 1)
      = true) :
    amend_one env store emp w nd x = x := by
  unfold amend_one
  simp only [Bool.and_eq_true, beq_iff_eq, decide_eq_true_eq] at h
  rw [if_neg]
  simp only [Bool.and_eq_true, beq_iff_eq]
  intro hc
  rw [hc.1.2] at h
  exact absurd h.1.2 (lt_irrefl w)

/-- submit_one leaves every non-draft entry alone. -/
theorem submit_one_fix_nondraft (env : Env) (store : List WeeklyEntry)
    (emp : ℕ) (w : ℤ) (x : WeeklyEntry) (h : x.docstatus ≠ 0) :
    submit_one env store emp w x = x := by
  unfold submit_one
  rw [if_neg]
  simp only [Bool.and_eq_true, beq_iff_eq]
  intro hc
  exact h hc.2

/-- recalculate_future_balances recomputes every later submitted entry of
the employee so that it carries the balances computed against the final
store, provided submitted keys are unique and the filtered submitted
sublist has no duplicate records. -/
theorem recalculate_future_balances_spec (env : Env) (st : List WeeklyEntry)
    (emp : ℕ) (w : ℤ) (snapshot : ℚ)
    (huniq : uniq_submitted st)
    (hnd : (st.filter (fun e => e.employee == emp
        && decide (w < e.week_start) && e.docstatus == 1)).Nodup) :
    ∀ e ∈ (recalculate_future_balances env st emp w snapshot).1,
      e.employee = emp → e.docstatus = 1 → w < e.week_start →
        balances_computed env (recalculate_future_balances env st emp w snapshot).1 e := by
  intro e he hemp hd hw
  have hpl := pairwise_lt_of_sorted_nodup _ (future_week_starts_sorted st emp w)
    (future_week_starts_nodup st emp w hnd huniq)
  have he2 : e ∈ apply_updates env emp st (future_week_starts st emp w) := he
  rcases apply_updates_key_origin env emp _ st e he2 with ⟨e0, he0, hk1, hk2, hk3⟩
  have he0f : e0 ∈ st.filter (fun x => x.employee == emp
      && decide (w < x.week_start) && x.docstatus == 1) := by
    rw [List.mem_filter]
    refine ⟨he0, ?_⟩
    simp only [Bool.and_eq_true, beq_iff_eq, decide_eq_true_eq]
    exact ⟨⟨hk1.symm.trans hemp, hk2 ▸ hw⟩, hk3.symm.trans hd⟩
  have hwmem : e.week_start ∈ future_week_starts st emp w := by
    unfold future_week_starts
    rw [(List.perm_insertionSort _ _).mem_iff, hk2]
    exact List.mem_map.mpr ⟨e0, he0f, rfl⟩
  exact apply_updates_balances env emp _ st huniq hpl e he2 hemp hd hwmem

/-- The weekly calculator, on a resolving pattern with at least one work day,
equals the closed-form floored formula over the holiday and leave counts. -/
theorem calc_weekly_eq_formula (env : Env) (emp : ℕ) (ws : ℤ)
    (p : EmployeeWorkPattern) (hp : get_work_pattern env.patterns emp ws = some p)
    (hwd : work_days_count p ≠ 0) :
    calculate_weekly_expected_hours_with_holidays env emp ws
      = max 0 (fte_weekly_hours env emp p
        - (holidays_count env emp ws p : ℚ) * daily_average env emp p
        - (regular_leaves_count env emp ws p : ℚ) * daily_average env emp p
        - (half_leaves_count env emp ws p : ℚ) * daily_average env emp p / 2) := by
  unfold calculate_weekly_expected_hours_with_holidays fte_weekly_hours daily_average
  rw [hp]
  simp [hwd, fte_weekly_hours]

/-- The weekly calculator returns 0 when the resolving pattern has no work
day at all. -/
theorem calc_weekly_eq_zero (env : Env) (emp : ℕ) (ws : ℤ)
    (p : EmployeeWorkPattern) (hp : get_work_pattern env.patterns emp ws = some p)
    (hwd : work_days_count p = 0) :
    calculate_weekly_expected_hours_with_holidays env emp ws = 0 := by
  unfold calculate_weekly_expected_hours_with_holidays
  rw [hp]
  simp [hwd]

end Lemmas

section ClaimTheorems

/-- C3: for every employee and date for which a committed work pattern
resolves, calculate_expected_hours returns, in precedence order: 0 on a
holiday regardless of the leave flags; else, with approved leave, half the
pattern's contracted hours for the weekday when half-day and 0 otherwise;
else the pattern's contracted hours for the weekday. -/
theorem claim_C3_daily_precedence (env : Env) (emp : ℕ) (d : ℤ)
    (p : EmployeeWorkPattern) (hp : get_work_pattern env.patterns emp d = some p) :
    (is_holiday env d (some emp) = true →
      ∀ leave half, calculate_expected_hours env emp d leave half = 0)
    ∧ (is_holiday env d (some emp) = false →
        calculate_expected_hours env emp d true true = p.get_hours_for_weekday d / 2
        ∧ calculate_expected_hours env emp d true false = 0
        ∧ ∀ half, calculate_expected_hours env emp d false half
            = p.get_hours_for_weekday d) := by
  unfold calculate_expected_hours
  rw [hp]
  constructor
  · intro hh leave half
    simp [hh]
  · intro hh
    simp [hh]

/-- Witness for C3 at the sample environment: the committed pattern resolves,
date 0 is no holiday, and the three precedence cases evaluate as stated. -/
theorem claim_C3_witness :
    (get_work_pattern sample_env.patterns 1 0 = some sample_pattern
      ∧ is_holiday sample_env 0 (some 1) = false)
    ∧ calculate_expected_hours sample_env 1 0 true true
        = sample_pattern.get_hours_for_weekday 0 / 2 :=
  ⟨⟨by decide, by decide⟩,
    ((claim_C3_daily_precedence sample_env 1 0 sample_pattern (by decide)).2
      (by decide)).1⟩

/-- C4, code behaviour at the failing input: on a non-holiday Monday covered
by a committed 8-hour pattern, the employee's only leave day of the week has
a presence category that deducts from the balance (expect_work_hours = 1),
yet the daily calculator, invoked as sync_roll_call_entries invokes it
(has_approved_leave = true because a leave application is linked), returns 0
instead of the pattern's 8 hours. -/
theorem claim_C4_code_behavior :
    get_work_pattern flex_off_env.patterns 1 0 = some sample_pattern
    ∧ is_holiday flex_off_env 0 (some 1) = false
    ∧ (get_leave_days_in_week flex_off_env 1 0).map
        (fun ld => (ld.date, ld.expect_work_hours)) = [(0, 1)]
    ∧ sample_pattern.get_hours_for_weekday 0 = 8
    ∧ calculate_expected_hours flex_off_env 1 0 true false = 0
    ∧ (0 : ℚ) ≠ 8 := by
  refine ⟨by decide, by decide, by decide, by decide, by decide, by decide⟩

/-- C8 counterexample: with no committed work pattern resolving, on a
non-holiday date with no approved leave the daily calculator returns its own
hard-coded default of 8, not 0 as the claim states. -/
theorem claim_C8_counterexample :
    get_work_pattern no_pattern_env.patterns 1 0 = none
    ∧ is_holiday no_pattern_env 0 (some 1) = false
    ∧ calculate_expected_hours no_pattern_env 1 0 false false = 8
    ∧ (8 : ℚ) ≠ 0 := by
  refine ⟨by decide, by decide, by decide, by decide⟩

/-- C8 amended: when no committed work pattern resolves, the daily calculator
itself defaults normal_hours to 8, so on a non-holiday date with no approved
leave it returns 8. -/
theorem claim_C8_amended_default_eight (env : Env) (emp : ℕ) (d : ℤ)
    (hp : get_work_pattern env.patterns emp d = none)
    (hh : is_holiday env d (some emp) = false) :
    ∀ half, calculate_expected_hours env emp d false half = 8 := by
  intro half
  unfold calculate_expected_hours
  rw [hp]
  simp [hh]

/-- Witness for the amended C8 at the pattern-free environment. -/
theorem claim_C8_amended_witness :
    (get_work_pattern no_pattern_env.patterns 1 0 = none
      ∧ is_holiday no_pattern_env 0 (some 1) = false)
    ∧ calculate_expected_hours no_pattern_env 1 0 false false = 8 :=
  ⟨⟨by decide, by decide⟩,
    claim_C8_amended_default_eight no_pattern_env 1 0 (by decide) (by decide) false⟩

/-- C9: when no committed work pattern resolves for the week, the weekly
calculator returns the company's base weekly hours unconditionally - the
result is the same whatever holidays and leave applications the week holds -
and the base falls back to 40 when no company configuration exists. -/
theorem claim_C9_no_pattern_returns_base (env : Env) (emp : ℕ) (ws : ℤ)
    (hp : get_work_pattern env.patterns emp ws = none) :
    (∀ hs ls, calculate_weekly_expected_hours_with_holidays
        { env with holidays := hs, leave_applications := ls } emp ws
      = get_base_weekly_hours env (resolved_company env emp))
    ∧ (env.companies = [] →
        calculate_weekly_expected_hours_with_holidays env emp ws = 40) := by
  have hmain : ∀ hs ls, calculate_weekly_expected_hours_with_holidays
      { env with holidays := hs, leave_applications := ls } emp ws
    = get_base_weekly_hours env (resolved_company env emp) := by
    intro hs ls
    unfold calculate_weekly_expected_hours_with_holidays
    have hpat : ({ env with holidays := hs, leave_applications := ls } : Env).patterns
        = env.patterns := rfl
    rw [hpat, hp]
    rfl
  refine ⟨hmain, fun hc => ?_⟩
  have h1 := hmain env.holidays env.leave_applications
  rw [show ({ env with holidays := env.holidays, leave_applications := env.leave_applications } : Env) = env from rfl] at h1
  rw [h1]
  unfold get_base_weekly_hours
  cases hrc : resolved_company env emp with
  | none => cases env.default_company <;> simp [hc]
  | some c => simp [hc]

/-- Witness for C9 at the empty environment: no pattern and no company
configuration, so the weekly calculator returns 40. -/
theorem claim_C9_witness :
    (get_work_pattern empty_env.patterns 1 0 = none ∧ empty_env.companies = [])
    ∧ calculate_weekly_expected_hours_with_holidays empty_env 1 0 = 40 :=
  ⟨⟨by decide, by decide⟩,
    (claim_C9_no_pattern_returns_base empty_env 1 0 (by decide)).2 rfl⟩

/-- C1 counterexample: a committed pattern with fte_percentage stored as 0,
five 8-hour work days, Monday week_start 0, no holidays and no leaves. The
claim's formula (fte_weekly_hours = base * fte_percentage / 100, literally)
yields 0, but the code substitutes 100 for the falsy fte_percentage and
returns 40. -/
theorem claim_C1_counterexample :
    get_work_pattern zero_fte_env.patterns 1 0 = some zero_fte_pattern
    ∧ (0 : ℤ) % 7 = 0
    ∧ 0 < work_days_count zero_fte_pattern
    ∧ claimed_weekly_expected_hours zero_fte_env 1 0 zero_fte_pattern = 0
    ∧ calculate_weekly_expected_hours_with_holidays zero_fte_env 1 0 = 40
    ∧ (40 : ℚ) ≠ 0 := by
  refine ⟨by decide, by decide, by decide, ?_, ?_, by norm_num⟩
  · unfold claimed_weekly_expected_hours
    rw [show work_days_count zero_fte_pattern = 5 from by decide]
    rw [show get_base_weekly_hours zero_fte_env (resolved_company zero_fte_env 1) = 40
      from by decide]
    rw [show holidays_count zero_fte_env 1 0 zero_fte_pattern = 0 from by decide]
    rw [show regular_leaves_count zero_fte_env 1 0 zero_fte_pattern = 0 from by decide]
    rw [show half_leaves_count zero_fte_env 1 0 zero_fte_pattern = 0 from by decide]
    rw [show zero_fte_pattern.fte_percentage = 0 from by decide]
    norm_num
  · rw [calc_weekly_eq_formula zero_fte_env 1 0 zero_fte_pattern (by decide) (by decide)]
    rw [show holidays_count zero_fte_env 1 0 zero_fte_pattern = 0 from by decide]
    rw [show regular_leaves_count zero_fte_env 1 0 zero_fte_pattern = 0 from by decide]
    rw [show half_leaves_count zero_fte_env 1 0 zero_fte_pattern = 0 from by decide]
    unfold daily_average fte_weekly_hours
    rw [show get_base_weekly_hours zero_fte_env (resolved_company zero_fte_env 1) = 40
      from by decide]
    rw [show pyOr zero_fte_pattern.fte_percentage 100 = 100 from by decide]
    norm_num

/-- C1 amended: for every employee and Monday week_start whose committed
pattern resolves, the weekly calculator returns 0 when the pattern has no
work day, and otherwise max(0, fte_weekly_hours - holidays_count *
daily_average - regular_leaves_count * daily_average - half_leaves_count *
daily_average / 2), where fte_weekly_hours reads the pattern's
fte_percentage as 100 when the stored value is falsy (0 or unset); the
counts are as the claim describes them. -/
theorem claim_C1_amended_weekly_formula (env : Env) (emp : ℕ) (ws : ℤ)
    (p : EmployeeWorkPattern)
    (hp : get_work_pattern env.patterns emp ws = some p)
    (_hmon : ws % 7 = 0) :
    (work_days_count p = 0 →
      calculate_weekly_expected_hours_with_holidays env emp ws = 0)
    ∧ (work_days_count p ≠ 0 →
      calculate_weekly_expected_hours_with_holidays env emp ws
        = max 0 (fte_weekly_hours env emp p
          - (holidays_count env emp ws p : ℚ) * daily_average env emp p
          - (regular_leaves_count env emp ws p : ℚ) * daily_average env emp p
          - (half_leaves_count env emp ws p : ℚ) * daily_average env emp p / 2)) :=
  ⟨fun hwd => calc_weekly_eq_zero env emp ws p hp hwd,
   fun hwd => calc_weekly_eq_formula env emp ws p hp hwd⟩

/-- Witness for the amended C1 at the sample environment (one full-day
non-deducting leave on Friday): 40 - 1 * 8 = 32. -/
theorem claim_C1_amended_witness :
    (get_work_pattern sample_env.patterns 1 0 = some sample_pattern
      ∧ (0 : ℤ) % 7 = 0 ∧ work_days_count sample_pattern ≠ 0)
    ∧ calculate_weekly_expected_hours_with_holidays sample_env 1 0
        = max 0 (fte_weekly_hours sample_env 1 sample_pattern
          - (holidays_count sample_env 1 0 sample_pattern : ℚ)
              * daily_average sample_env 1 sample_pattern
          - (regular_leaves_count sample_env 1 0 sample_pattern : ℚ)
              * daily_average sample_env 1 sample_pattern
          - (half_leaves_count sample_env 1 0 sample_pattern : ℚ)
              * daily_average sample_env 1 sample_pattern / 2)
    ∧ calculate_weekly_expected_hours_with_holidays sample_env 1 0 = 32 :=
  ⟨⟨by decide, by decide, by decide⟩,
   (claim_C1_amended_weekly_formula sample_env 1 0 sample_pattern (by decide)
      (by decide)).2 (by decide),
   by
    rw [calc_weekly_eq_formula sample_env 1 0 sample_pattern (by decide) (by decide)]
    rw [show holidays_count sample_env 1 0 sample_pattern = 0 from by decide]
    rw [show regular_leaves_count sample_env 1 0 sample_pattern = 1 from by decide]
    rw [show half_leaves_count sample_env 1 0 sample_pattern = 0 from by decide]
    unfold daily_average fte_weekly_hours
    rw [show get_base_weekly_hours sample_env (resolved_company sample_env 1) = 40
      from by decide]
    rw [show pyOr sample_pattern.fte_percentage 100 = 100 from by decide]
    rw [show work_days_count sample_pattern = 5 from by decide]
    norm_num⟩

/-- C10: a pattern work day that is both a holiday and a full-day (resp.
half-day) approved non-deducting leave day contributes once to
holidays_count and once to regular_leaves_count (resp. half_leaves_count),
and the weekly result subtracts daily_average for each count (half the
daily_average per half-day count) before flooring at 0 - so such a day is
subtracted twice (1.5 times when half-day). -/
theorem claim_C10_double_count (env : Env) (emp : ℕ) (ws : ℤ)
    (p : EmployeeWorkPattern) (i : ℕ)
    (hp : get_work_pattern env.patterns emp ws = some p)
    (hwd : work_days_count p ≠ 0)
    (hi : i < 7)
    (hhol : is_holiday env (ws + (i : ℤ)) (some emp) = true)
    (hwork : is_work_day p (ws + (i : ℤ)) = true)
    (ld : LeaveDayInfo) (hld : ld ∈ get_leave_days_in_week env emp ws)
    (hdate : ld.date = ws + (i : ℤ)) (hexp : ld.expect_work_hours = 0) :
    1 ≤ holidays_count env emp ws p
    ∧ (ld.is_half_day = false → 1 ≤ regular_leaves_count env emp ws p)
    ∧ (ld.is_half_day = true → 1 ≤ half_leaves_count env emp ws p)
    ∧ calculate_weekly_expected_hours_with_holidays env emp ws
        = max 0 (fte_weekly_hours env emp p
          - (holidays_count env emp ws p : ℚ) * daily_average env emp p
          - (regular_leaves_count env emp ws p : ℚ) * daily_average env emp p
          - (half_leaves_count env emp ws p : ℚ) * daily_average env emp p / 2) := by
  have hcounted : ld ∈ counted_leave_days env emp ws p := by
    unfold counted_leave_days
    rw [List.mem_filter]
    exact ⟨hld, by rw [hdate]; exact hwork⟩
  refine ⟨?_, ?_, ?_, calc_weekly_eq_formula env emp ws p hp hwd⟩
  · unfold holidays_count
    apply List.length_pos_of_mem
    show i ∈ _
    rw [List.mem_filter]
    refine ⟨List.mem_range.mpr hi, ?_⟩
    rw [hhol, hwork]
    rfl
  · intro hhalf
    unfold regular_leaves_count
    apply List.length_pos_of_mem
    show ld ∈ _
    rw [List.mem_filter]
    refine ⟨hcounted, ?_⟩
    rw [hexp, hhalf]
    rfl
  · intro hhalf
    unfold half_leaves_count
    apply List.length_pos_of_mem
    show ld ∈ _
    rw [List.mem_filter]
    refine ⟨hcounted, ?_⟩
    rw [hexp, hhalf]
    rfl

/-- Witness for C10: in the overlap environment the Monday (date 0) is a
holiday and a full-day non-deducting leave day on a work day; both counts
are at least 1 and the weekly result evaluates to 40 - 8 - 8 = 24. -/
theorem claim_C10_witness :
    (get_work_pattern overlap_env.patterns 1 0 = some sample_pattern
      ∧ is_holiday overlap_env 0 (some 1) = true
      ∧ is_work_day sample_pattern 0 = true)
    ∧ 1 ≤ holidays_count overlap_env 1 0 sample_pattern
    ∧ calculate_weekly_expected_hours_with_holidays overlap_env 1 0 = 24 :=
  ⟨⟨by decide, by decide, by decide⟩,
   (claim_C10_double_count overlap_env 1 0 sample_pattern 0 (by decide)
      (by decide) (by decide) (by decide) (by decide)
      { date := 0, presence_type := 7, is_half_day := false,
        expect_work_hours := 0, leave_application := 50 }
      (by decide) (by decide) (by decide)).1,
   by
    rw [calc_weekly_eq_formula overlap_env 1 0 sample_pattern (by decide) (by decide)]
    rw [show holidays_count overlap_env 1 0 sample_pattern = 1 from by decide]
    rw [show regular_leaves_count overlap_env 1 0 sample_pattern = 1 from by decide]
    rw [show half_leaves_count overlap_env 1 0 sample_pattern = 0 from by decide]
    unfold daily_average fte_weekly_hours
    rw [show get_base_weekly_hours overlap_env (resolved_company overlap_env 1) = 40
      from by decide]
    rw [show pyOr sample_pattern.fte_percentage 100 = 100 from by decide]
    rw [show work_days_count sample_pattern = 5 from by decide]
    norm_num⟩

/-- C2: for a gapless ascending sequence of submitted weekly entries of one
employee (weeks w0, w0+7, ..), each stored with the balances the code
computes (calculate_totals / recalculate_future_balances), and with no
draft or submitted entry in the week before w0, the k-th entry's
previous_balance is the initial balance plus the sum of the first k deltas
and its running_balance is the initial balance plus the sum of the first
k+1 deltas. -/
theorem claim_C2_balance_chain (env : Env) (store : List WeeklyEntry)
    (emp : ℕ) (w0 : ℤ) (es : List WeeklyEntry)
    (huniq : uniq_week_keys store)
    (hmem : ∀ k (hk : k < es.length), es.get ⟨k, hk⟩ ∈ store)
    (hemp : ∀ k (hk : k < es.length), (es.get ⟨k, hk⟩).employee = emp)
    (hsub : ∀ k (hk : k < es.length), (es.get ⟨k, hk⟩).docstatus = 1)
    (hweek : ∀ k (hk : k < es.length), (es.get ⟨k, hk⟩).week_start = w0 + 7 * k)
    (hcomp : ∀ k (hk : k < es.length), balances_computed env store (es.get ⟨k, hk⟩))
    (hnoprev : ∀ e ∈ store, e.employee = emp → e.week_start = w0 - 7 →
      e.docstatus ≠ 0 ∧ e.docstatus ≠ 1) :
    ∀ k (hk : k < es.length),
      (es.get ⟨k, hk⟩).previous_balance
        = get_initial_balance env emp w0
          + ((es.take k).map (fun e => e.weekly_delta)).sum
      ∧ (es.get ⟨k, hk⟩).running_balance
        = get_initial_balance env emp w0
          + ((es.take (k + 1)).map (fun e => e.weekly_delta)).sum := by
  have hsum : ∀ k (hk : k < es.length),
      ((es.take (k + 1)).map (fun e => e.weekly_delta)).sum
        = ((es.take k).map (fun e => e.weekly_delta)).sum
          + (es.get ⟨k, hk⟩).weekly_delta := by
    intro k hk
    rw [List.take_succ, List.map_append, List.sum_append]
    rw [List.getElem?_eq_getElem hk]
    simp [List.get_eq_getElem]
  intro k
  induction k with
  | zero =>
    intro hk
    have hc := hcomp 0 hk
    unfold balances_computed compute_balances at hc
    rw [hemp 0 hk, hweek 0 hk] at hc
    have hw : w0 + 7 * ((0 : ℕ) : ℤ) = w0 := by push_cast; ring
    rw [hw] at hc
    rw [get_previous_of_none hnoprev] at hc
    have h1 : (es.get ⟨0, hk⟩).previous_balance = get_initial_balance env emp w0 :=
      congrArg Prod.fst hc
    have h2 : (es.get ⟨0, hk⟩).running_balance
        = get_initial_balance env emp w0 + (es.get ⟨0, hk⟩).weekly_delta :=
      congrArg Prod.snd hc
    constructor
    · rw [h1]
      simp
    · rw [h2, hsum 0 hk]
      simp
  | succ k ih =>
    intro hk
    have hk' : k < es.length := Nat.lt_of_succ_lt hk
    have ihk := ih hk'
    have hc := hcomp (k + 1) hk
    unfold balances_computed compute_balances at hc
    rw [hemp (k + 1) hk, hweek (k + 1) hk] at hc
    have hprev : get_previous_weekly_entry store emp (w0 + 7 * ((k + 1 : ℕ) : ℤ))
        = some (es.get ⟨k, hk'⟩) := by
      apply get_previous_of_submitted huniq (hmem k hk') (hemp k hk')
        ?_ (hsub k hk')
      rw [hweek k hk']
      push_cast
      ring
    rw [hprev] at hc
    have h1 : (es.get ⟨k + 1, hk⟩).previous_balance
        = (es.get ⟨k, hk'⟩).running_balance := congrArg Prod.fst hc
    have h2 : (es.get ⟨k + 1, hk⟩).running_balance
        = (es.get ⟨k, hk'⟩).running_balance + (es.get ⟨k + 1, hk⟩).weekly_delta :=
      congrArg Prod.snd hc
    constructor
    · rw [h1, ihk.2]
    · rw [h2, ihk.2, hsum (k + 1) hk]
      ring

/-- Witness for C2, the claim's own example: two prior submitted weeks with
deltas +5 and -3 and initial balance 0; the third week's previous_balance is
the initial balance plus the first two deltas, which is 2. -/
theorem claim_C2_witness :
    (uniq_week_keys chain_store ∧ get_initial_balance empty_env 1 0 = 0)
    ∧ (chain_store.get ⟨2, by decide⟩).previous_balance
        = get_initial_balance empty_env 1 0
          + ((chain_store.take 2).map (fun e => e.weekly_delta)).sum
    ∧ (chain_store.get ⟨2, by decide⟩).previous_balance = 2 :=
  ⟨⟨by decide, by decide⟩,
   (claim_C2_balance_chain empty_env chain_store 1 0 chain_store
      (by decide) (by decide) (by decide) (by decide) (by decide)
      (by
        intro k hk
        have hk3 : k < 3 := hk
        interval_cases k <;>
          simp [balances_computed, compute_balances, get_previous_weekly_entry,
            get_initial_balance, get_work_pattern, chain_store, entry_week0,
            entry_week7, entry_week14, empty_env, List.find?] <;> norm_num)
      (by decide) 2 (by decide)).1,
   by decide⟩

/-- C5 counterexample: the store holds only a draft entry of employee 1 at
week 0 with stored running_balance 10; for week 7 no submitted entry exists
at week_start - 7 and the initial balance is 0, yet the code computes
previous_balance 10 from the draft, not the claimed initial balance 0. -/
theorem claim_C5_counterexample :
    (∀ e ∈ [draft_week0], ¬(e.employee = 1 ∧ e.week_start = (7 : ℤ) - 7
        ∧ e.docstatus = 1))
    ∧ get_initial_balance empty_env 1 7 = 0
    ∧ (compute_balances empty_env [draft_week0] 1 7 0).1 = 10
    ∧ (10 : ℚ) ≠ 0 := by
  refine ⟨by decide, by decide, by decide, by norm_num⟩

/-- C5 amended: previous_balance is the running_balance of the submitted
entry at week_start - 7 when one exists; failing that, of the draft entry at
week_start - 7 when one exists; only when neither exists does it fall back
to the initial_balance of the pattern active at week_start (0 when no
pattern); and running_balance = previous_balance + weekly_delta. -/
theorem claim_C5_amended_previous_balance (env : Env) (store : List WeeklyEntry)
    (emp : ℕ) (ws : ℤ) (delta : ℚ) (huniq : uniq_week_keys store) :
    (compute_balances env store emp ws delta).2
      = (compute_balances env store emp ws delta).1 + delta
    ∧ (∀ e ∈ store, e.employee = emp → e.week_start = ws - 7 → e.docstatus = 1 →
        (compute_balances env store emp ws delta).1 = e.running_balance)
    ∧ ((∀ x ∈ store, x.employee = emp → x.week_start = ws - 7 → x.docstatus ≠ 1) →
        ∀ e ∈ store, e.employee = emp → e.week_start = ws - 7 → e.docstatus = 0 →
          (compute_balances env store emp ws delta).1 = e.running_balance)
    ∧ ((∀ e ∈ store, e.employee = emp → e.week_start = ws - 7 →
          e.docstatus ≠ 0 ∧ e.docstatus ≠ 1) →
        (compute_balances env store emp ws delta).1
          = get_initial_balance env emp ws) := by
  refine ⟨rfl, ?_, ?_, ?_⟩
  · intro e he hemp hws hd
    unfold compute_balances
    rw [get_previous_of_submitted huniq he hemp hws hd]
  · intro hnosub e he hemp hws hd
    unfold compute_balances
    rw [get_previous_of_draft huniq hnosub he hemp hws hd]
  · intro h
    unfold compute_balances
    rw [get_previous_of_none h]

/-- Witness for the amended C5 on the three-week chain: for week 14 the
submitted entry at week 7 exists and previous_balance is its
running_balance. -/
theorem claim_C5_amended_witness :
    (uniq_week_keys chain_store ∧ entry_week7 ∈ chain_store
      ∧ entry_week7.docstatus = 1)
    ∧ (compute_balances empty_env chain_store 1 14 4).1
        = entry_week7.running_balance :=
  ⟨⟨by decide, by decide, by decide⟩,
   (claim_C5_amended_previous_balance empty_env chain_store 1 14 4
      (by decide)).2.1 entry_week7 (by decide) (by decide) (by decide)
      (by decide)⟩

/-- C7 counterexample: employee 1 has a draft week-0 entry and a submitted
week-7 entry; a non-privileged submission of week 14 (current date 100, week
long elapsed) passes both gates in the code, although the claim's condition
fails: an earlier weekly entry exists, and a still-earlier draft week (week
0) exists alongside the submitted immediately-preceding week. -/
theorem claim_C7_counterexample :
    submission_gates_pass false [draft_to_submit, stale_week7] 1 14 100 = true
    ∧ ¬((∀ e ∈ [draft_to_submit, stale_week7],
          ¬(e.employee = 1 ∧ e.week_start < 14))
        ∨ ((∃ e ∈ [draft_to_submit, stale_week7],
              e.employee = 1 ∧ e.week_start = 14 - 7 ∧ e.docstatus = 1)
          ∧ (∀ e ∈ [draft_to_submit, stale_week7],
              e.employee = 1 → e.week_start < 14 - 7 → e.docstatus ≠ 0))) := by
  refine ⟨by decide, by decide⟩

/-- C7 amended: an HR Manager always passes both gates; a non-privileged
actor passes exactly when the week has fully elapsed (week_end =
week_start + 6 earlier than the current date) and either the entry of the
immediately preceding week exists and is submitted (regardless of
still-earlier drafts), or no entry exists at the immediately preceding week
and no strictly earlier draft entry exists (earlier submitted or cancelled
weeks with a gap are allowed). -/
theorem claim_C7_amended_submission_gate (store : List WeeklyEntry) (emp : ℕ)
    (ws current : ℤ) (huniq : uniq_week_keys_all store) :
    submission_gates_pass true store emp ws current = true
    ∧ (submission_gates_pass false store emp ws current = true ↔
        (ws + 6 < current
          ∧ ((∃ e, e ∈ store ∧ e.employee = emp ∧ e.week_start = ws - 7
                ∧ e.docstatus = 1)
            ∨ ((∀ e ∈ store, ¬(e.employee = emp ∧ e.week_start = ws - 7))
              ∧ (∀ e ∈ store, e.employee = emp → e.week_start < ws →
                  e.docstatus ≠ 0))))) := by
  constructor
  · rfl
  · have hseq : validate_sequential_submission false store emp ws
        = (match store.find? (fun e => e.employee == emp && e.week_start == ws - 7) with
           | some prev => prev.docstatus == 1
           | none => !store.any (fun e =>
               e.employee == emp && decide (e.week_start < ws) && e.docstatus == 0)) := rfl
    have hwc : validate_week_complete false ws current = decide (ws + 6 < current) := rfl
    unfold submission_gates_pass
    rw [hseq, hwc, Bool.and_eq_true, decide_eq_true_eq]
    cases hf : store.find? (fun e => e.employee == emp && e.week_start == ws - 7) with
    | some prev =>
      simp only [beq_iff_eq]
      have hprevmem := List.mem_of_find?_eq_some hf
      have hprevkey := List.find?_some hf
      simp only [Bool.and_eq_true, beq_iff_eq] at hprevkey
      constructor
      · rintro ⟨hd, hc⟩
        exact ⟨hc, Or.inl ⟨prev, hprevmem, hprevkey.1, hprevkey.2, hd⟩⟩
      · rintro ⟨hc, hcase⟩
        refine ⟨?_, hc⟩
        rcases hcase with ⟨e, he, hee, hew, hed⟩ | ⟨hnone2, _⟩
        · have he2 : e = prev := huniq e he prev hprevmem
            (by rw [hee, hprevkey.1]) (by rw [hew, hprevkey.2])
          rw [← he2]
          exact hed
        · exact absurd ⟨hprevkey.1, hprevkey.2⟩ (hnone2 prev hprevmem)
    | none =>
      have hnone := List.find?_eq_none.mp hf
      have hkey : ∀ e ∈ store, ¬(e.employee = emp ∧ e.week_start = ws - 7) := by
        intro e he hk
        have h1 := hnone e he
        simp only [Bool.and_eq_true, beq_iff_eq] at h1
        exact h1 ⟨hk.1, hk.2⟩
      have hany : (store.any (fun e =>
          e.employee == emp && decide (e.week_start < ws) && e.docstatus == 0)) = true
          ↔ ∃ e ∈ store, e.employee = emp ∧ e.week_start < ws ∧ e.docstatus = 0 := by
        rw [List.any_eq_true]
        constructor
        · rintro ⟨e, he, hp⟩
          simp only [Bool.and_eq_true, beq_iff_eq, decide_eq_true_eq] at hp
          exact ⟨e, he, hp.1.1, hp.1.2, hp.2⟩
        · rintro ⟨e, he, h1, h2, h3⟩
          refine ⟨e, he, ?_⟩
          simp [h1, h2, h3]
      constructor
      · rintro ⟨hd, hc⟩
        rw [Bool.not_eq_true'] at hd
        refine ⟨hc, Or.inr ⟨hkey, ?_⟩⟩
        intro e he hee hew hed
        have hco : (store.any (fun e =>
            e.employee == emp && decide (e.week_start < ws) && e.docstatus == 0)) = true :=
          hany.mpr ⟨e, he, hee, hew, hed⟩
        rw [hco] at hd
        cases hd
      · rintro ⟨hc, hcase⟩
        refine ⟨?_, hc⟩
        rw [Bool.not_eq_true']
        rcases hcase with ⟨e, he, hee, hew, _⟩ | ⟨_, hnodraft⟩
        · exact absurd ⟨hee, hew⟩ (hkey e he)
        · rw [← Bool.not_eq_true]
          intro hco
          rcases hany.mp hco with ⟨e, he, h1, h2, h3⟩
          exact hnodraft e he h1 h2 h3

/-- Witness for the amended C7: with an empty store and current date 100,
submitting week 14 passes for a non-privileged actor because the week has
elapsed, no preceding-week entry exists and no earlier draft exists. -/
theorem claim_C7_amended_witness :
    uniq_week_keys_all ([] : List WeeklyEntry)
    ∧ (submission_gates_pass false [] 1 14 100 = true ↔
        ((14 : ℤ) + 6 < 100
          ∧ ((∃ e, e ∈ ([] : List WeeklyEntry) ∧ e.employee = 1
                ∧ e.week_start = 14 - 7 ∧ e.docstatus = 1)
            ∨ ((∀ e ∈ ([] : List WeeklyEntry),
                  ¬(e.employee = 1 ∧ e.week_start = 14 - 7))
              ∧ (∀ e ∈ ([] : List WeeklyEntry), e.employee = 1 →
                  e.week_start < 14 → e.docstatus ≠ 0))))) :=
  ⟨by decide,
   (claim_C7_amended_submission_gate [] 1 14 100 (by decide)).2⟩

/-- C6 amended: on Cancel and on amend-after-submit the cascade runs: every
later submitted entry of the employee ends up carrying the balances
recomputed against the final store, and in both cases the employee balance
snapshot becomes the running_balance of the latest submitted week (left
unchanged when no submitted week remains). On Submit, however, no later
entry is recomputed - every non-draft entry is carried over verbatim - and
only the snapshot is refreshed the same way. -/
theorem claim_C6_amended_triggers (env : Env) (store : List WeeklyEntry)
    (emp : ℕ) (w : ℤ) (snapshot new_delta : ℚ)
    (huniq : uniq_submitted store) (hnd : store.Nodup) :
    (∀ e ∈ (cancel_entry env store emp w snapshot).1,
        e.employee = emp → e.docstatus = 1 → w < e.week_start →
          balances_computed env (cancel_entry env store emp w snapshot).1 e)
    ∧ ((∀ e ∈ (cancel_entry env store emp w snapshot).1,
          ¬(e.employee = emp ∧ e.docstatus = 1)) →
        (cancel_entry env store emp w snapshot).2 = snapshot)
    ∧ (∀ e ∈ (cancel_entry env store emp w snapshot).1,
        e.employee = emp → e.docstatus = 1 →
          ∃ m ∈ (cancel_entry env store emp w snapshot).1,
            m.employee = emp ∧ m.docstatus = 1
            ∧ (∀ x ∈ (cancel_entry env store emp w snapshot).1,
                x.employee = emp → x.docstatus = 1 → x.week_start ≤ m.week_start)
            ∧ (cancel_entry env store emp w snapshot).2 = m.running_balance)
    ∧ (∀ e ∈ (amend_after_submit env store emp w new_delta snapshot).1,
        e.employee = emp → e.docstatus = 1 → w < e.week_start →
          balances_computed env
            (amend_after_submit env store emp w new_delta snapshot).1 e)
    ∧ ((∀ e ∈ (amend_after_submit env store emp w new_delta snapshot).1,
          ¬(e.employee = emp ∧ e.docstatus = 1)) →
        (amend_after_submit env store emp w new_delta snapshot).2 = snapshot)
    ∧ (∀ e ∈ (amend_after_submit env store emp w new_delta snapshot).1,
        e.employee = emp → e.docstatus = 1 →
          ∃ m ∈ (amend_after_submit env store emp w new_delta snapshot).1,
            m.employee = emp ∧ m.docstatus = 1
            ∧ (∀ x ∈ (amend_after_submit env store emp w new_delta snapshot).1,
                x.employee = emp → x.docstatus = 1 → x.week_start ≤ m.week_start)
            ∧ (amend_after_submit env store emp w new_delta snapshot).2
                = m.running_balance)
    ∧ (∀ e ∈ store, e.docstatus ≠ 0 →
        e ∈ (submit_entry env store emp w snapshot).1)
    ∧ ((∀ e ∈ (submit_entry env store emp w snapshot).1,
          ¬(e.employee = emp ∧ e.docstatus = 1)) →
        (submit_entry env store emp w snapshot).2 = snapshot)
    ∧ (∀ e ∈ (submit_entry env store emp w snapshot).1,
        e.employee = emp → e.docstatus = 1 →
          ∃ m ∈ (submit_entry env store emp w snapshot).1,
            m.employee = emp ∧ m.docstatus = 1
            ∧ (∀ x ∈ (submit_entry env store emp w snapshot).1,
                x.employee = emp → x.docstatus = 1 → x.week_start ≤ m.week_start)
            ∧ (submit_entry env store emp w snapshot).2 = m.running_balance) := by
  have huniqC : uniq_submitted (store.map (cancel_one emp w)) :=
    uniq_submitted_map_fix store _ huniq
      (fun x _ h => cancel_one_fix_submitted emp w x h)
  have hndC : ((store.map (cancel_one emp w)).filter (fun e =>
      e.employee == emp && decide (w < e.week_start) && e.docstatus == 1)).Nodup := by
    rw [filter_map_eq store _ _ (fun x _ => cancel_one_pred emp w x)
      (fun x _ h => cancel_one_fix_pred emp w x h)]
    exact hnd.filter _
  have huniqA : uniq_submitted
      (store.map (amend_one env store emp w new_delta)) :=
    uniq_submitted_map_keys store _ huniq
      (amend_one_employee env store emp w new_delta)
      (amend_one_week_start env store emp w new_delta)
      (amend_one_docstatus env store emp w new_delta)
  have hndA : ((store.map (amend_one env store emp w new_delta)).filter (fun e =>
      e.employee == emp && decide (w < e.week_start) && e.docstatus == 1)).Nodup := by
    rw [filter_map_eq store _ _
      (fun x _ => amend_one_pred env store emp w new_delta x)
      (fun x _ h => amend_one_fix_pred env store emp w new_delta x h)]
    exact hnd.filter _
  refine ⟨?_, ?_, ?_, ?_, ?_, ?_, ?_, ?_, ?_⟩
  · exact recalculate_future_balances_spec env
      (store.map (cancel_one emp w)) emp w snapshot huniqC hndC
  · intro h
    exact update_employee_balance_of_none
      ((cancel_entry env store emp w snapshot).1) emp snapshot h
  · intro e he hemp hd
    exact update_employee_balance_of_some
      ((cancel_entry env store emp w snapshot).1) emp snapshot e he hemp hd
  · exact recalculate_future_balances_spec env
      (store.map (amend_one env store emp w new_delta)) emp w
      (update_employee_balance (store.map (amend_one env store emp w new_delta))
        emp snapshot) huniqA hndA
  · intro h
    have h' : ∀ e ∈ store.map (amend_one env store emp w new_delta),
        ¬(e.employee = emp ∧ e.docstatus = 1) := by
      intro e he hk
      rcases apply_updates_key_forward env emp
          (future_week_starts (store.map (amend_one env store emp w new_delta))
            emp w)
          (store.map (amend_one env store emp w new_delta)) e he
        with ⟨x, hx, hk1, hk2, hk3⟩
      exact h x hx ⟨hk1.trans hk.1, hk3.trans hk.2⟩
    exact Eq.trans
      (update_employee_balance_of_none
        ((amend_after_submit env store emp w new_delta snapshot).1) emp
        (update_employee_balance (store.map (amend_one env store emp w new_delta))
          emp snapshot) h)
      (update_employee_balance_of_none
        (store.map (amend_one env store emp w new_delta)) emp snapshot h')
  · intro e he hemp hd
    exact update_employee_balance_of_some
      ((amend_after_submit env store emp w new_delta snapshot).1) emp
      (update_employee_balance (store.map (amend_one env store emp w new_delta))
        emp snapshot) e he hemp hd
  · intro e he hd
    exact mem_map_of_fix he (submit_one_fix_nondraft env store emp w e hd)
  · intro h
    exact update_employee_balance_of_none
      ((submit_entry env store emp w snapshot).1) emp snapshot h
  · intro e he hemp hd
    exact update_employee_balance_of_some
      ((submit_entry env store emp w snapshot).1) emp snapshot e he hemp hd

/-- C6 counterexample: week 0 is a draft about to be submitted while week 7
is already submitted with stale balances. Submitting week 0 keeps the stale
week-7 entry verbatim in the store (previous_balance 0), although
recomputation against the resulting store demands previous_balance 5 - so
the claim's on-Submit cascade does not exist in the code. -/
theorem claim_C6_counterexample :
    stale_week7 ∈ (submit_entry empty_env [draft_to_submit, stale_week7] 1 0 99).1
    ∧ stale_week7.employee = 1 ∧ stale_week7.docstatus = 1
    ∧ (0 : ℤ) < stale_week7.week_start
    ∧ ¬ balances_computed empty_env
        (submit_entry empty_env [draft_to_submit, stale_week7] 1 0 99).1
        stale_week7 := by
  refine ⟨mem_map_of_fix (by decide)
      (submit_one_fix_nondraft empty_env [draft_to_submit, stale_week7] 1 0
        stale_week7 (by decide)),
    by decide, by decide, by decide, ?_⟩
  intro hbc
  have h1 := congrArg Prod.fst hbc
  simp [compute_balances, get_previous_weekly_entry, submit_entry, submit_one,
    empty_env, draft_to_submit, stale_week7, entry_week0, get_initial_balance,
    get_work_pattern, List.find?] at h1

/-- Witness for the amended C6: cancelling week 0 of the three-week chain
leaves the recomputed week-7 entry (previous 0, running -3) in the store and
that entry satisfies the recomputation invariant; and submitting on the
chain store carries the submitted week-7 entry over verbatim. -/
theorem claim_C6_amended_witness :
    (uniq_submitted chain_store ∧ chain_store.Nodup
      ∧ cancelled_chain_week7 ∈ (cancel_entry empty_env chain_store 1 0 6).1)
    ∧ balances_computed empty_env (cancel_entry empty_env chain_store 1 0 6).1
        cancelled_chain_week7
    ∧ entry_week7 ∈ (submit_entry empty_env chain_store 1 0 6).1 :=
  ⟨⟨by decide, by decide, by
      simp [cancel_entry, recalculate_future_balances, apply_updates,
        future_week_starts, update_entry_balances, update_one, cancel_one,
        get_previous_weekly_entry, get_initial_balance, get_work_pattern,
        compute_balances, chain_store, entry_week0, entry_week7, entry_week14,
        empty_env, cancelled_chain_week7, List.insertionSort, List.orderedInsert,
        List.find?]⟩,
   (claim_C6_amended_triggers empty_env chain_store 1 0 6 0 (by decide)
      (by decide)).1 cancelled_chain_week7
     (by
      simp [cancel_entry, recalculate_future_balances, apply_updates,
        future_week_starts, update_entry_balances, update_one, cancel_one,
        get_previous_weekly_entry, get_initial_balance, get_work_pattern,
        compute_balances, chain_store, entry_week0, entry_week7, entry_week14,
        empty_env, cancelled_chain_week7, List.insertionSort, List.orderedInsert,
        List.find?])
     (by decide) (by decide) (by decide),
   (claim_C6_amended_triggers empty_env chain_store 1 0 6 0 (by decide)
      (by decide)).2.2.2.2.2.2.1 entry_week7 (by decide) (by decide)⟩

end ClaimTheorems

end Flexitime
